import Mathlib

/-
  Verification of the seat lifecycle and concurrency-control engine of the
  samguptaa/tech-task repository.

  The embedding models the Redis-backed `SeatService` (the primary engine)
  and the lock-guarded `EnhancedSeatService.holdSeat` critical section.
  Time is modelled in whole seconds as `Nat`.  The Redis store is modelled
  as a record of partial maps; the per-event seats hash is an association
  list (field order matters for `hGetAll` iteration in `getAvailableSeats`).
  A key stored with `setEx`/TTL is modelled by keeping the entry together
  with its payload `expiresAt` (the code always sets the store TTL and the
  payload expiry to the same instant); a `get` at time `now` returns the
  entry if and only if `now < expiresAt`, mirroring store-native eviction.
-/

set_option maxHeartbeats 1000000

namespace SeatEngine

/-- Seat lifecycle states, from the `SeatStatus` type of the source. -/
inductive SeatStatus
  | available
  | held
  | reserved
  deriving DecidableEq, Repr

/-- Event lifecycle states. -/
inductive EventStatus
  | active
  | inactive
  | cancelled
  deriving DecidableEq, Repr

/-- Error taxonomy: each constructor corresponds to one `throw new Error(...)`
message in the source.  `seatNotAvailable`, `heldByOther`, `notHeld` and
`holdExpired` are the spec's `Conflict` family. -/
inductive Err
  | eventNotFound      -- "Event not found"
  | eventExists        -- "Event already exists"
  | invalidSeatCount   -- "Total seats must be between 10 and 1000"
  | invalidSeatNumber  -- "Invalid seat number"
  | seatNotFound       -- "Seat not found"
  | seatNotAvailable   -- "Seat is not available"
  | quotaExceeded      -- "User can hold maximum N seats"
  | notHeld            -- "Seat is not held"
  | heldByOther        -- "Seat is held by another user"
  | holdExpired        -- "Seat hold has expired"
  | lockContention     -- "Seat is currently being processed by another user"
  deriving DecidableEq, Repr

/-- Durable event record (`Event` in `types/index.ts`). -/
structure Event where
  id : String
  name : String
  description : String
  totalSeats : Nat
  createdAt : Nat
  status : EventStatus
  deriving DecidableEq, Repr

/-- Durable seat record (`Seat` in `types/index.ts`). -/
structure Seat where
  eventId : String
  seatNumber : Nat
  status : SeatStatus
  userId : Option String
  heldAt : Option Nat
  reservedAt : Option Nat
  deriving DecidableEq, Repr

/-- Ephemeral hold (lease) payload (`SeatHold`). -/
structure SeatHold where
  eventId : String
  seatNumber : Nat
  userId : String
  heldAt : Nat
  expiresAt : Nat
  deriving DecidableEq, Repr

/-- Durable reservation record (`SeatReservation`). -/
structure SeatReservation where
  eventId : String
  seatNumber : Nat
  userId : String
  reservedAt : Nat
  deriving DecidableEq, Repr

/-- Entry of the `getAvailableSeats` result (`AvailableSeat`). -/
structure AvailableSeat where
  seatNumber : Nat
  status : SeatStatus
  deriving DecidableEq, Repr

deriving instance DecidableEq for Except

/-- Pointwise update of a function-backed map. -/
def updFun {α β : Type} [DecidableEq α] (f : α → β) (a : α) (b : β) : α → β :=
  fun x => if x = a then b else f x

@[simp] theorem updFun_same {α β : Type} [DecidableEq α] (f : α → β) (a : α) (b : β) :
    updFun f a b a = b := by simp [updFun]

theorem updFun_ne {α β : Type} [DecidableEq α] (f : α → β) (a : α) (b : β)
    {x : α} (h : x ≠ a) : updFun f a b x = f x := by simp [updFun, h]

/-- Redis hash `hGet`: first entry for the field, as `client.hGet`. -/
def hget (l : List (Nat × Seat)) (n : Nat) : Option Seat :=
  (l.find? (fun p => p.1 == n)).map Prod.snd

/-- Redis hash `hSet`: replace the field if present, else append it. -/
def hset (l : List (Nat × Seat)) (n : Nat) (s : Seat) : List (Nat × Seat) :=
  if l.any (fun p => p.1 == n) then
    l.map (fun p => if p.1 == n then (n, s) else p)
  else
    l ++ [(n, s)]

/-- The Redis key space of `SeatService` (`RedisKeys`):
`events` is `event:{id}`, `eventSeats` is the hash `event_seats:{id}`,
`seatHolds` is `seat_hold:{e}:{n}` (with TTL), `userHolds` is the set
`user_holds:{userId}:{eventId}`, `reservations` is `seat_reserved:{e}:{n}`. -/
structure St where
  events : String → Option Event
  eventSeats : String → List (Nat × Seat)
  seatHolds : String × Nat → Option SeatHold
  userHolds : String × String → Finset Nat
  reservations : String × Nat → Option SeatReservation

/-- The empty Redis store. -/
def initSt : St :=
  { events := fun _ => none
    eventSeats := fun _ => []
    seatHolds := fun _ => none
    userHolds := fun _ => ∅
    reservations := fun _ => none }

/-- A TTL-respecting `get` of a hold key: the store evicts the key once the
hold duration has elapsed, so the entry is visible iff `now < expiresAt`. -/
def getHold (st : St) (e : String) (n : Nat) (now : Nat) : Option SeatHold :=
  match st.seatHolds (e, n) with
  | some h => if now < h.expiresAt then some h else none
  | none => none

/-- `SeatService.getEvent`. -/
def getEvent (st : St) (e : String) : Except Err Event :=
  match st.events e with
  | none => .error .eventNotFound
  | some ev => .ok ev

/-- `SeatService.getUserHoldCount`: cardinality of the user-hold set. -/
def getUserHoldCount (st : St) (e u : String) : Nat :=
  (st.userHolds (u, e)).card

/-- `SeatService.createEvent`.  Validates the seat count, refuses duplicate
ids, stores the event record and bulk-writes one available seat per number
`1..totalSeats` into the event's seats hash. -/
def createEvent (st : St) (e : String) (totalSeats : Nat)
    (name desc : String) (now : Nat) : Except Err Event × St :=
  if totalSeats < 10 ∨ totalSeats > 1000 then (.error .invalidSeatCount, st)
  else
    match st.events e with
    | some _ => (.error .eventExists, st)
    | none =>
      let eventData : Event :=
        { id := e, name := name, description := desc, totalSeats := totalSeats,
          createdAt := now, status := .active }
      let st₁ : St := { st with events := updFun st.events e (some eventData) }
      let seatData : List (Nat × Seat) :=
        (List.range totalSeats).map (fun i =>
          (i + 1,
            { eventId := e, seatNumber := i + 1, status := .available,
              userId := none, heldAt := none, reservedAt := none }))
      let newSeats := seatData.foldl (fun l p => hset l p.1 p.2) (st₁.eventSeats e)
      let st₂ : St := { st₁ with eventSeats := updFun st₁.eventSeats e newSeats }
      (.ok eventData, st₂)

/-- `SeatService.releaseSeat`: fails only when the seat record is absent;
mutates state only when the seat is currently held (clear holder fields,
delete the hold key, remove the seat from the holder's user-hold set). -/
def releaseSeat (st : St) (e : String) (n : Nat) : Except Err Unit × St :=
  match hget (st.eventSeats e) n with
  | none => (.error .seatNotFound, st)
  | some seat =>
    if seat.status = .held then
      let updatedSeat : Seat :=
        { seat with status := .available, userId := none, heldAt := none }
      let newSeats := hset (st.eventSeats e) n updatedSeat
      let st₁ : St := { st with eventSeats := updFun st.eventSeats e newSeats }
      let st₂ : St := { st₁ with seatHolds := updFun st₁.seatHolds (e, n) none }
      let st₃ : St :=
        match seat.userId with
        | some u =>
          let newSet := (st₂.userHolds (u, e)).erase n
          { st₂ with userHolds := updFun st₂.userHolds (u, e) newSet }
        | none => st₂
      (.ok (), st₃)
    else
      (.ok (), st)

/-- `SeatService.holdSeat`: event check, seat-number bounds, seat lookup,
availability check, quota check — then (and only then) the writes: durable
status to held, hold key with TTL, seat added to the user-hold set. -/
def holdSeat (st : St) (e : String) (n : Nat) (u : String)
    (d : Nat) (now : Nat) (maxHolds : Nat) : Except Err SeatHold × St :=
  match st.events e with
  | none => (.error .eventNotFound, st)
  | some ev =>
    if n < 1 ∨ n > ev.totalSeats then (.error .invalidSeatNumber, st)
    else
      match hget (st.eventSeats e) n with
      | none => (.error .seatNotFound, st)
      | some seat =>
        if seat.status ≠ .available then (.error .seatNotAvailable, st)
        else if getUserHoldCount st e u ≥ maxHolds then (.error .quotaExceeded, st)
        else
          let updatedSeat : Seat :=
            { seat with status := .held, userId := some u, heldAt := some now }
          let holdData : SeatHold :=
            { eventId := e, seatNumber := n, userId := u,
              heldAt := now, expiresAt := now + d }
          let newSeats := hset (st.eventSeats e) n updatedSeat
          let st₁ : St := { st with eventSeats := updFun st.eventSeats e newSeats }
          let st₂ : St :=
            { st₁ with seatHolds := updFun st₁.seatHolds (e, n) (some holdData) }
          let newSet := insert n (st₂.userHolds (u, e))
          let st₃ : St :=
            { st₂ with userHolds := updFun st₂.userHolds (u, e) newSet }
          (.ok holdData, st₃)

/-- `SeatService.reserveSeat`: lease lookup first (TTL-respecting `get`),
holder check, (dead) payload-expiry recheck, then seat lookup and the
writes: durable status to reserved, hold key deleted, reservation record
created, seat removed from the holder's user-hold set. -/
def reserveSeat (st : St) (e : String) (n : Nat) (u : String)
    (now : Nat) : Except Err SeatReservation × St :=
  match getHold st e n now with
  | none => (.error .notHeld, st)
  | some hold =>
    if hold.userId ≠ u then (.error .heldByOther, st)
    else if hold.expiresAt < now then
      let r := releaseSeat st e n
      (.error .holdExpired, r.2)
    else
      match hget (st.eventSeats e) n with
      | none => (.error .seatNotFound, st)
      | some seat =>
        let updatedSeat : Seat := { seat with status := .reserved, reservedAt := some now }
        let newSeats := hset (st.eventSeats e) n updatedSeat
        let st₁ : St := { st with eventSeats := updFun st.eventSeats e newSeats }
        let st₂ : St := { st₁ with seatHolds := updFun st₁.seatHolds (e, n) none }
        let reservation : SeatReservation :=
          { eventId := e, seatNumber := n, userId := u, reservedAt := now }
        let st₃ : St :=
          { st₂ with reservations := updFun st₂.reservations (e, n) (some reservation) }
        let newSet := (st₃.userHolds (u, e)).erase n
        let st₄ : St :=
          { st₃ with userHolds := updFun st₃.userHolds (u, e) newSet }
        (.ok reservation, st₄)

/-- `SeatService.refreshSeatHold`: lease lookup, holder check, (dead)
payload-expiry recheck, then the hold key is rewritten with a fresh TTL. -/
def refreshSeatHold (st : St) (e : String) (n : Nat) (u : String)
    (d : Nat) (now : Nat) : Except Err SeatHold × St :=
  match getHold st e n now with
  | none => (.error .notHeld, st)
  | some hold =>
    if hold.userId ≠ u then (.error .heldByOther, st)
    else if hold.expiresAt < now then
      let r := releaseSeat st e n
      (.error .holdExpired, r.2)
    else
      let updatedHold : SeatHold := { hold with expiresAt := now + d }
      (.ok updatedHold,
        { st with seatHolds := updFun st.seatHolds (e, n) (some updatedHold) })

/-- `SeatService.getSeatStatus`: seat lookup; if the durable status is held
and the hold key is gone, performs the implicit release and reports the
seat as available. -/
def getSeatStatus (st : St) (e : String) (n : Nat) (now : Nat) :
    Except Err Seat × St :=
  match hget (st.eventSeats e) n with
  | none => (.error .seatNotFound, st)
  | some seat =>
    if seat.status = .held then
      match getHold st e n now with
      | some _ => (.ok seat, st)
      | none =>
        let r := releaseSeat st e n
        (.ok { seat with status := .available, userId := none, heldAt := none }, r.2)
    else
      (.ok seat, st)

/-- Loop body of `SeatService.getAvailableSeats`: iterate over the snapshot
of the event's seats hash; available seats are included; held seats whose
hold key is gone are released (side effect) and included; everything else
is skipped.  The state is threaded through the releases. -/
def availLoop (st : St) (e : String) (now : Nat) :
    List (Nat × Seat) → List AvailableSeat × St
  | [] => ([], st)
  | (m, seat) :: rest =>
    if seat.status = .available then
      let r := availLoop st e now rest
      (⟨m, .available⟩ :: r.1, r.2)
    else if seat.status = .held then
      match getHold st e m now with
      | some _ => availLoop st e now rest
      | none =>
        let rel := releaseSeat st e m
        let r := availLoop rel.2 e now rest
        (⟨m, .available⟩ :: r.1, r.2)
    else
      availLoop st e now rest

/-- Insertion of an `AvailableSeat` into a list sorted by seat number. -/
def insertBySeat (a : AvailableSeat) : List AvailableSeat → List AvailableSeat
  | [] => [a]
  | b :: l => if a.seatNumber ≤ b.seatNumber then a :: b :: l else b :: insertBySeat a l

/-- Sorting by ascending seat number, as the source's
`sort((a, b) => a.seatNumber - b.seatNumber)`. -/
def sortBySeat : List AvailableSeat → List AvailableSeat
  | [] => []
  | a :: l => insertBySeat a (sortBySeat l)

/-- `SeatService.getAvailableSeats`: event check, loop over the seats hash
with lazy reconciliation, then sort ascending by seat number. -/
def getAvailableSeats (st : St) (e : String) (now : Nat) :
    Except Err (List AvailableSeat) × St :=
  match st.events e with
  | none => (.error .eventNotFound, st)
  | some _ =>
    let r := availLoop st e now (st.eventSeats e)
    (.ok (sortBySeat r.1), r.2)

/-! ### EnhancedSeatService: the Mutual-Exclusion Gate and `holdSeat`

The enhanced service keeps durable seats in PostgreSQL (one row per
(event, seat)) and the gate in Redis: `lock:seat:{e}:{n}`, written with
`SET ... EX 10 NX` holding the value `userId:timestamp`, and deleted in
the `finally` block with a plain unconditional `DEL`.  -/

/-- State of the enhanced service: Postgres seat rows, the Redis hold keys,
user-hold sets, the per-seat gate keys (value plus expiry instant), and
reservation rows. -/
structure EnhSt where
  seats : String × Nat → Option Seat
  holds : String × Nat → Option SeatHold
  userHolds : String × String → Finset Nat
  locks : String × Nat → Option (String × Nat)
  reservations : String × Nat → Option SeatReservation

/-- Is the gate key for `(e, n)` alive at `now`?  A key written with
`EX 10` is visible until its expiry instant. -/
def lockLive (st : EnhSt) (e : String) (n : Nat) (now : Nat) : Bool :=
  match st.locks (e, n) with
  | some lv => now < lv.2
  | none => false

/-- The `SET lockKey lockValue EX 10 NX` acquisition step of
`EnhancedSeatService.holdSeat`: succeeds only if no live key is present. -/
def acquireSeatLock (st : EnhSt) (e : String) (n : Nat) (lockValue : String)
    (now : Nat) : Bool × EnhSt :=
  if lockLive st e n now then (false, st)
  else (true, { st with locks := updFun st.locks (e, n) (some (lockValue, now + 10)) })

/-- The `finally { redisClient.del(lockKey) }` release step: an
unconditional delete, taking no token and checking none. -/
def releaseSeatLock (st : EnhSt) (e : String) (n : Nat) : EnhSt :=
  { st with locks := updFun st.locks (e, n) none }

/-- `EnhancedSeatService.getUserHoldCount`. -/
def enhGetUserHoldCount (st : EnhSt) (e u : String) : Nat :=
  (st.userHolds (u, e)).card

/-- The critical section of `EnhancedSeatService.holdSeat` (inside the
Postgres transaction, after the gate is acquired): `SELECT ... FOR UPDATE`,
availability check, quota check, then the writes (seat row to held, hold
key with TTL, seat added to the user-hold set). -/
def enhHoldCritical (st : EnhSt) (e : String) (n : Nat) (u : String)
    (d : Nat) (now : Nat) (maxHolds : Nat) : Except Err SeatHold × EnhSt :=
  match st.seats (e, n) with
  | none => (.error .seatNotFound, st)
  | some seat =>
    if seat.status ≠ .available then (.error .seatNotAvailable, st)
    else if enhGetUserHoldCount st e u ≥ maxHolds then (.error .quotaExceeded, st)
    else
      let updatedSeat : Seat :=
        { seat with status := .held, userId := some u, heldAt := some now }
      let holdData : SeatHold :=
        { eventId := e, seatNumber := n, userId := u,
          heldAt := now, expiresAt := now + d }
      let st₁ : EnhSt := { st with seats := updFun st.seats (e, n) (some updatedSeat) }
      let st₂ : EnhSt := { st₁ with holds := updFun st₁.holds (e, n) (some holdData) }
      let newSet := insert n (st₂.userHolds (u, e))
      let st₃ : EnhSt := { st₂ with userHolds := updFun st₂.userHolds (u, e) newSet }
      (.ok holdData, st₃)

/-- `EnhancedSeatService.holdSeat` as one sequential call: acquire the gate
(fail fast with `lockContention`), run the critical section, release the
gate unconditionally in the `finally` block. -/
def enhHoldSeat (st : EnhSt) (e : String) (n : Nat) (u : String)
    (d : Nat) (now : Nat) (maxHolds : Nat) : Except Err SeatHold × EnhSt :=
  let lockValue := u ++ ":" ++ toString now
  let acq := acquireSeatLock st e n lockValue now
  if acq.1 then
    let r := enhHoldCritical acq.2 e n u d now maxHolds
    (r.1, releaseSeatLock r.2 e n)
  else
    (.error .lockContention, acq.2)

/-! ### Concurrent hold attempts

`N` callers run `EnhancedSeatService.holdSeat` against the same
`(event, seat)` concurrently.  Each caller performs two atomic phases:
the gate acquisition (`SET ... NX`, one Redis command) and the critical
section (serialized by the gate and by `FOR UPDATE` row locking; the
`finally` release of the gate is part of the same phase).  A scheduler
interleaves the phases of the callers arbitrarily. -/

/-- Progress of one caller through `holdSeat`. -/
inductive Phase
  | start
  | critical
  | done (r : Except Err SeatHold)

/-- Pointwise update of the phase assignment. -/
def updPhase (ph : Nat → Phase) (i : Nat) (p : Phase) : Nat → Phase :=
  fun j => if j = i then p else ph j

/-- One scheduler step of the concurrent run: some caller `i` either
attempts the gate (failing fast with `lockContention` if the gate key is
live, acquiring it otherwise) or, holding the gate, runs its critical
section and releases the gate. -/
inductive CStep (e : String) (n : Nat) (d now maxHolds : Nat)
    (users : Nat → String) :
    EnhSt × (Nat → Phase) → EnhSt × (Nat → Phase) → Prop
  | lockBusy (st : EnhSt) (ph : Nat → Phase) (i : Nat)
      (hp : ph i = .start) (hl : lockLive st e n now = true) :
      CStep e n d now maxHolds users (st, ph)
        (st, updPhase ph i (.done (.error .lockContention)))
  | lockAcquire (st : EnhSt) (ph : Nat → Phase) (i : Nat)
      (hp : ph i = .start) (hl : lockLive st e n now = false) :
      CStep e n d now maxHolds users (st, ph)
        ((acquireSeatLock st e n (users i ++ ":" ++ toString now) now).2,
          updPhase ph i .critical)
  | runCritical (st : EnhSt) (ph : Nat → Phase) (i : Nat)
      (r : Except Err SeatHold) (st' : EnhSt)
      (hp : ph i = .critical)
      (hc : enhHoldCritical st e n (users i) d now maxHolds = (r, st')) :
      CStep e n d now maxHolds users (st, ph)
        (releaseSeatLock st' e n, updPhase ph i (.done r))

/-! ### Lemmas about the hash primitives -/

theorem find?_append {α : Type} (p : α → Bool) (l₁ l₂ : List α) :
    (l₁ ++ l₂).find? p = ((l₁.find? p).orElse (fun _ => l₂.find? p)) := by
  induction l₁ with
  | nil => simp
  | cons a t ih =>
    by_cases h : p a = true
    · simp [List.find?_cons, h]
    · have h' : p a = false := by simpa using h
      simp [List.find?_cons, h', ih]

theorem hget_eq_none_of_any_false {l : List (Nat × Seat)} {n : Nat}
    (h : l.any (fun p => p.1 == n) = false) : hget l n = none := by
  unfold hget
  have : l.find? (fun p => p.1 == n) = none := by
    rw [List.find?_eq_none]
    intro x hx
    have := List.any_eq_false.mp h x hx
    simpa using this
  simp [this]

theorem find?_seat_cons_pos (q : Nat × Seat) (t : List (Nat × Seat)) (m : Nat)
    (h : (q.1 == m) = true) :
    (q :: t).find? (fun p => p.1 == m) = some q := by
  simp [List.find?_cons, h]

theorem find?_seat_cons_neg (q : Nat × Seat) (t : List (Nat × Seat)) (m : Nat)
    (h : (q.1 == m) = false) :
    (q :: t).find? (fun p => p.1 == m) = t.find? (fun p => p.1 == m) := by
  simp [List.find?_cons, h]

theorem find?_map_replace_self (n : Nat) (s : Seat) :
    ∀ t : List (Nat × Seat), t.any (fun p => p.1 == n) = true →
    (t.map (fun p => if p.1 == n then (n, s) else p)).find? (fun p => p.1 == n)
      = some (n, s)
  | [], h => by simp at h
  | q :: t, h => by
    rw [List.map_cons]
    by_cases hq : q.1 = n
    · have hcond : (q.1 == n) = true := beq_iff_eq.mpr hq
      rw [if_pos hcond]
      exact List.find?_cons_of_pos _ (by simp)
    · have hcond : (q.1 == n) = false := beq_eq_false_iff_ne.mpr hq
      rw [if_neg (by simp [hcond])]
      rw [List.find?_cons_of_neg _ (by simp [hq])]
      have ht : t.any (fun p => p.1 == n) = true := by
        rcases List.any_eq_true.mp h with ⟨x, hx, hpx⟩
        rcases List.mem_cons.mp hx with rfl | hx'
        · rw [hcond] at hpx; cases hpx
        · exact List.any_eq_true.mpr ⟨x, hx', hpx⟩
      exact find?_map_replace_self n s t ht

theorem find?_map_replace_ne (n m : Nat) (s : Seat) (h : m ≠ n) :
    ∀ t : List (Nat × Seat),
    (t.map (fun p => if p.1 == n then (n, s) else p)).find? (fun p => p.1 == m)
      = t.find? (fun p => p.1 == m)
  | [] => rfl
  | q :: t => by
    rw [List.map_cons]
    by_cases hq : q.1 = n
    · have hcond : (q.1 == n) = true := beq_iff_eq.mpr hq
      rw [if_pos hcond]
      have h1 : ((((n, s) : Nat × Seat).1 == m) = false) :=
        beq_eq_false_iff_ne.mpr (fun hc => h hc.symm)
      have h2 : ((q.1 == m) = false) :=
        beq_eq_false_iff_ne.mpr (by rw [hq]; exact fun hc => h hc.symm)
      rw [find?_seat_cons_neg _ _ _ h1, find?_seat_cons_neg _ _ _ h2]
      exact find?_map_replace_ne n m s h t
    · have hcond : (q.1 == n) = false := beq_eq_false_iff_ne.mpr hq
      rw [if_neg (by simp [hcond])]
      by_cases hqm : q.1 = m
      · have hb : (q.1 == m) = true := beq_iff_eq.mpr hqm
        rw [find?_seat_cons_pos _ _ _ hb, find?_seat_cons_pos _ _ _ hb]
      · have hb : ((q.1 == m) = false) := beq_eq_false_iff_ne.mpr hqm
        rw [find?_seat_cons_neg _ _ _ hb, find?_seat_cons_neg _ _ _ hb]
        exact find?_map_replace_ne n m s h t

theorem hget_hset_self (l : List (Nat × Seat)) (n : Nat) (s : Seat) :
    hget (hset l n s) n = some s := by
  unfold hset hget
  by_cases h : l.any (fun p => p.1 == n) = true
  · rw [if_pos h, find?_map_replace_self n s l h]
    rfl
  · have h' : l.any (fun p => p.1 == n) = false := by
      cases hb : l.any (fun p => p.1 == n) with
      | false => rfl
      | true => exact absurd hb h
    rw [if_neg h]
    rw [find?_append]
    have hnone : l.find? (fun p => p.1 == n) = none := by
      rw [List.find?_eq_none]
      intro x hx
      have := List.any_eq_false.mp h' x hx
      simpa using this
    rw [hnone]
    simp [List.find?_cons]

theorem hget_hset_ne (l : List (Nat × Seat)) {m n : Nat} (s : Seat)
    (h : m ≠ n) : hget (hset l n s) m = hget l m := by
  unfold hset hget
  by_cases hany : l.any (fun p => p.1 == n) = true
  · rw [if_pos hany, find?_map_replace_ne n m s h l]
  · rw [if_neg hany, find?_append]
    rcases hfind : l.find? (fun p => p.1 == m) with _ | q
    · rw [hfind]
      have hb : ((((n, s) : Nat × Seat).1 == m) = false) :=
        beq_eq_false_iff_ne.mpr (fun hc => h hc.symm)
      rw [find?_seat_cons_neg _ _ _ hb]
      simp
    · rw [hfind]
      simp

theorem keys_hset_replace (l : List (Nat × Seat)) (n : Nat) (s : Seat)
    (h : l.any (fun p => p.1 == n) = true) :
    (hset l n s).map Prod.fst = l.map Prod.fst := by
  unfold hset
  rw [if_pos h, List.map_map]
  apply List.map_congr_left
  intro p _
  by_cases hp : p.1 = n
  · simp [hp]
  · simp [hp]

theorem keys_hset_append (l : List (Nat × Seat)) (n : Nat) (s : Seat)
    (h : l.any (fun p => p.1 == n) = false) :
    (hset l n s).map Prod.fst = l.map Prod.fst ++ [n] := by
  unfold hset
  rw [if_neg (by rw [h]; exact Bool.false_ne_true)]
  simp

theorem nodup_hset {l : List (Nat × Seat)} (n : Nat) (s : Seat)
    (h : (l.map Prod.fst).Nodup) : ((hset l n s).map Prod.fst).Nodup := by
  by_cases hany : l.any (fun p => p.1 == n) = true
  · rw [keys_hset_replace l n s hany]; exact h
  · have h' : l.any (fun p => p.1 == n) = false := by
      cases hb : l.any (fun p => p.1 == n) with
      | false => rfl
      | true => exact absurd hb hany
    rw [keys_hset_append l n s h']
    rw [List.nodup_append]
    refine ⟨h, List.nodup_singleton n, ?_⟩
    intro a ha hb
    simp only [List.mem_singleton] at hb
    subst hb
    rcases List.mem_map.mp ha with ⟨p, hp, hfst⟩
    have hfalse := List.any_eq_false.mp h' p hp
    apply hfalse
    simp [hfst]

theorem mem_of_hget {l : List (Nat × Seat)} {m : Nat} {s : Seat}
    (h : hget l m = some s) : (m, s) ∈ l := by
  unfold hget at h
  rcases hf : l.find? (fun p => p.1 == m) with _ | q
  · rw [hf] at h
    simp at h
  · rw [hf] at h
    have hq := List.find?_some hf
    have hmem := List.mem_of_find?_eq_some hf
    rcases q with ⟨q1, q2⟩
    have h1 : q1 = m := by simpa using hq
    have h2 : q2 = s := by simpa using h
    rw [h1, h2] at hmem
    exact hmem

theorem hget_eq_some_of_mem {l : List (Nat × Seat)} {m : Nat} {s : Seat}
    (hnd : (l.map Prod.fst).Nodup) (hmem : (m, s) ∈ l) : hget l m = some s := by
  unfold hget
  induction l with
  | nil => simp at hmem
  | cons q t ih =>
    rcases List.mem_cons.mp hmem with h | h
    · simp [List.find?_cons, ← h]
    · have hq : q.1 ≠ m := by
        intro hc
        have : m ∈ t.map Prod.fst := List.mem_map.mpr ⟨(m, s), h, rfl⟩
        rw [List.map_cons, List.nodup_cons] at hnd
        exact hnd.1 (hc ▸ this)
      have hq2 : (q.1 == m) = false := by simp [hq]
      rw [List.map_cons, List.nodup_cons] at hnd
      simp [List.find?_cons, hq2, ih hnd.2 h]

/-! ### The seats hash written by `createEvent` -/

theorem hget_foldl_hset (sd : List (Nat × Seat)) :
    ∀ (l₀ : List (Nat × Seat)) (m : Nat), (sd.map Prod.fst).Nodup →
    hget (sd.foldl (fun l p => hset l p.1 p.2) l₀) m =
      (match sd.find? (fun p => p.1 == m) with
        | some p => some p.2
        | none => hget l₀ m) := by
  induction sd with
  | nil => intro l₀ m _; rfl
  | cons q t ih =>
    intro l₀ m hnd
    rcases q with ⟨k, s⟩
    rw [List.map_cons, List.nodup_cons] at hnd
    rw [List.foldl_cons]
    rw [ih (hset l₀ k s) m hnd.2]
    by_cases hm : m = k
    · subst hm
      have hft : t.find? (fun p => p.1 == m) = none := by
        rw [List.find?_eq_none]
        intro x hx
        intro hb
        exact hnd.1 (List.mem_map.mpr ⟨x, hx, by simpa using hb⟩)
      rw [hft]
      rw [find?_seat_cons_pos _ _ _ (by simp)]
      exact hget_hset_self l₀ m s
    · rw [find?_seat_cons_neg _ _ _
        (by simpa using (fun hc => hm hc.symm : ¬ k = m))]
      rcases hft : t.find? (fun p => p.1 == m) with _ | p
      · rw [hft, hget_hset_ne l₀ s hm]
      · rw [hft]

theorem nodup_foldl_hset (sd : List (Nat × Seat)) :
    ∀ l₀ : List (Nat × Seat), ((l₀.map Prod.fst)).Nodup →
    (((sd.foldl (fun l p => hset l p.1 p.2) l₀).map Prod.fst)).Nodup := by
  induction sd with
  | nil => intro l₀ h; exact h
  | cons q t ih =>
    intro l₀ h
    rw [List.foldl_cons]
    exact ih _ (nodup_hset q.1 q.2 h)

/-- The seat record `createEvent` writes for seat number `m`. -/
def freshSeat (e : String) (m : Nat) : Seat :=
  { eventId := e, seatNumber := m, status := .available,
    userId := none, heldAt := none, reservedAt := none }

theorem find?_range_map (f : Nat → Seat) (T : Nat) :
    ∀ m : Nat,
    ((List.range T).map (fun i => (i + 1, f (i + 1)))).find? (fun p => p.1 == m)
      = if 1 ≤ m ∧ m ≤ T then some (m, f m) else none := by
  induction T with
  | zero =>
    intro m
    rw [List.range_zero, List.map_nil]
    rw [if_neg (by omega)]
    rfl
  | succ T ih =>
    intro m
    rw [List.range_succ, List.map_append, find?_append, ih m]
    by_cases h : 1 ≤ m ∧ m ≤ T
    · rw [if_pos h, if_pos ⟨h.1, by omega⟩]
      rfl
    · rw [if_neg h]
      by_cases hm : m = T + 1
      · subst hm
        rw [if_pos ⟨by omega, le_refl _⟩]
        rw [List.map_cons, List.map_nil]
        rw [find?_seat_cons_pos _ _ _ (by simp)]
        simp
      · rw [if_neg (by omega)]
        rw [List.map_cons, List.map_nil]
        rw [find?_seat_cons_neg _ _ _ (by simpa using (fun hc => hm hc.symm : ¬ T + 1 = m))]
        simp

theorem keys_range_map (f : Nat → Seat) (T : Nat) :
    (((List.range T).map (fun i => (i + 1, f (i + 1)))).map Prod.fst).Nodup := by
  rw [List.map_map]
  have : (Prod.fst ∘ fun i => (i + 1, f (i + 1))) = fun i => i + 1 := rfl
  rw [this]
  exact (List.nodup_range T).map (fun a b h => by omega)

/-! ### Engine operations as a transition system -/

/-- One engine operation, with its explicit time argument: the engine
re-reads the shared stores on every call, so a trace of operations with
arbitrary timestamps describes every reachable state. -/
inductive Op
  | create (e : String) (totalSeats : Nat) (name desc : String) (now : Nat)
  | hold (e : String) (n : Nat) (u : String) (d now maxHolds : Nat)
  | reserve (e : String) (n : Nat) (u : String) (now : Nat)
  | release (e : String) (n : Nat)
  | refresh (e : String) (n : Nat) (u : String) (d now : Nat)
  | getStatus (e : String) (n : Nat) (now : Nat)
  | listAvailable (e : String) (now : Nat)

/-- The state reached after one operation (its result is discarded). -/
def applyOp (st : St) : Op → St
  | .create e T name desc now => (createEvent st e T name desc now).2
  | .hold e n u d now maxH => (holdSeat st e n u d now maxH).2
  | .reserve e n u now => (reserveSeat st e n u now).2
  | .release e n => (releaseSeat st e n).2
  | .refresh e n u d now => (refreshSeatHold st e n u d now).2
  | .getStatus e n now => (getSeatStatus st e n now).2
  | .listAvailable e now => (getAvailableSeats st e now).2

/-- The state reached after a sequence of operations. -/
def runOps (st : St) (ops : List Op) : St := ops.foldl applyOp st

/-- Reachable-state invariant of the engine: an event absent from the
store has no seats hash; seats hashes have distinct field keys; a hold
key always points at a durably held seat of its own holder; and the
held-at / reserved-at timestamps track the status (`heldAt` is set on
held and on reserved seats — `reserveSeat` copies it over — and
`reservedAt` exactly on reserved seats). -/
structure Inv (st : St) : Prop where
  events_seats : ∀ e, st.events e = none → st.eventSeats e = []
  nodup : ∀ e, ((st.eventSeats e).map Prod.fst).Nodup
  hold_held : ∀ e n h, st.seatHolds (e, n) = some h →
    ∃ seat, hget (st.eventSeats e) n = some seat ∧ seat.status = .held ∧
      seat.userId = some h.userId
  heldAt_iff : ∀ e n seat, hget (st.eventSeats e) n = some seat →
    (seat.heldAt.isSome ↔ seat.status ≠ .available)
  reservedAt_iff : ∀ e n seat, hget (st.eventSeats e) n = some seat →
    (seat.reservedAt.isSome ↔ seat.status = .reserved)

theorem inv_initSt : Inv initSt := by
  constructor <;> intro e <;> simp [initSt, hget]

/-! ### Characterization of each operation's state effect -/

theorem getHold_some {st : St} {e : String} {n : Nat} {now : Nat} {h : SeatHold}
    (hh : getHold st e n now = some h) :
    st.seatHolds (e, n) = some h ∧ now < h.expiresAt := by
  unfold getHold at hh
  split at hh
  case h_1 h0 hk =>
    split at hh
    case isTrue hlt =>
      cases hh
      exact ⟨hk, hlt⟩
    case isFalse => cases hh
  case h_2 => cases hh

theorem getHold_none {st : St} {e : String} {n : Nat} {now : Nat}
    (hh : getHold st e n now = none) :
    st.seatHolds (e, n) = none ∨
      ∃ h, st.seatHolds (e, n) = some h ∧ h.expiresAt ≤ now := by
  unfold getHold at hh
  split at hh
  case h_1 h0 hk =>
    split at hh
    case isTrue hlt => cases hh
    case isFalse hlt => exact Or.inr ⟨h0, hk, by omega⟩
  case h_2 hk => exact Or.inl hk

/-- The seat record `releaseSeat` writes back when it releases. -/
def releasedSeat (seat : Seat) : Seat :=
  { seat with status := .available, userId := none, heldAt := none }

theorem releaseSeat_cases (st : St) (e : String) (n : Nat) :
    (releaseSeat st e n).2 = st ∨
    ∃ seat, hget (st.eventSeats e) n = some seat ∧ seat.status = .held ∧
      (releaseSeat st e n).1 = .ok () ∧
      (releaseSeat st e n).2.events = st.events ∧
      (releaseSeat st e n).2.eventSeats =
        updFun st.eventSeats e (hset (st.eventSeats e) n (releasedSeat seat)) ∧
      (releaseSeat st e n).2.seatHolds = updFun st.seatHolds (e, n) none ∧
      (releaseSeat st e n).2.reservations = st.reservations ∧
      (releaseSeat st e n).2.userHolds =
        (match seat.userId with
          | some u => updFun st.userHolds (u, e) ((st.userHolds (u, e)).erase n)
          | none => st.userHolds) := by
  unfold releaseSeat
  split
  · exact Or.inl rfl
  case h_2 seat hseat =>
    split
    case isTrue hheld =>
      refine Or.inr ⟨seat, hseat, hheld, ?_⟩
      cases huid : seat.userId <;>
        simp [releasedSeat, huid]
    case isFalse => exact Or.inl rfl

theorem inv_releaseSeat {st : St} (e : String) (n : Nat) (hI : Inv st) :
    Inv (releaseSeat st e n).2 := by
  rcases releaseSeat_cases st e n with h | ⟨seat, hseat, hheld, _, hev, hseats, hholds, _, _⟩
  · rw [h]; exact hI
  · constructor
    · intro e' he'
      rw [hev] at he'
      rw [hseats]
      by_cases he : e' = e
      · subst he
        have h0 := hI.events_seats e' he'
        rw [h0] at hseat
        simp [hget] at hseat
      · rw [updFun_ne _ _ _ he]
        exact hI.events_seats e' he'
    · intro e'
      rw [hseats]
      by_cases he : e' = e
      · subst he
        rw [updFun_same]
        exact nodup_hset _ _ (hI.nodup e')
      · rw [updFun_ne _ _ _ he]
        exact hI.nodup e'
    · intro e' n' h hh
      rw [hholds] at hh
      by_cases hk : (e', n') = (e, n)
      · rw [hk, updFun_same] at hh
        cases hh
      · rw [updFun_ne _ _ _ hk] at hh
        obtain ⟨s0, hs0, hstat, huid⟩ := hI.hold_held e' n' h hh
        refine ⟨s0, ?_, hstat, huid⟩
        rw [hseats]
        by_cases he : e' = e
        · subst he
          rw [updFun_same]
          have hn : n' ≠ n := fun hc => hk (by rw [hc])
          rw [hget_hset_ne _ _ hn]
          exact hs0
        · rw [updFun_ne _ _ _ he]
          exact hs0
    · intro e' n' s hs
      rw [hseats] at hs
      by_cases he : e' = e
      · subst he
        rw [updFun_same] at hs
        by_cases hn : n' = n
        · subst hn
          rw [hget_hset_self] at hs
          cases hs
          simp [releasedSeat]
        · rw [hget_hset_ne _ _ hn] at hs
          exact hI.heldAt_iff e' n' s hs
      · rw [updFun_ne _ _ _ he] at hs
        exact hI.heldAt_iff e' n' s hs
    · intro e' n' s hs
      rw [hseats] at hs
      by_cases he : e' = e
      · subst he
        rw [updFun_same] at hs
        by_cases hn : n' = n
        · subst hn
          rw [hget_hset_self] at hs
          cases hs
          have h0 := hI.reservedAt_iff e' n' seat hseat
          rw [hheld] at h0
          simp at h0
          simp [releasedSeat, h0]
        · rw [hget_hset_ne _ _ hn] at hs
          exact hI.reservedAt_iff e' n' s hs
      · rw [updFun_ne _ _ _ he] at hs
        exact hI.reservedAt_iff e' n' s hs

/-- The seat record `holdSeat` writes on success. -/
def heldSeat (seat : Seat) (u : String) (now : Nat) : Seat :=
  { seat with status := .held, userId := some u, heldAt := some now }

/-- The seat record `reserveSeat` writes on success (note: `heldAt` is
carried over unchanged from the held seat). -/
def reservedSeat (seat : Seat) (now : Nat) : Seat :=
  { seat with status := .reserved, reservedAt := some now }

theorem holdSeat_cases (st : St) (e : String) (n : Nat) (u : String)
    (d now maxH : Nat) :
    ((holdSeat st e n u d now maxH).2 = st ∧
      ∃ er, (holdSeat st e n u d now maxH).1 = .error er) ∨
    (∃ ev seat, st.events e = some ev ∧ 1 ≤ n ∧ n ≤ ev.totalSeats ∧
      hget (st.eventSeats e) n = some seat ∧ seat.status = .available ∧
      (st.userHolds (u, e)).card < maxH ∧
      (holdSeat st e n u d now maxH).1 = .ok ⟨e, n, u, now, now + d⟩ ∧
      (holdSeat st e n u d now maxH).2.events = st.events ∧
      (holdSeat st e n u d now maxH).2.eventSeats =
        updFun st.eventSeats e (hset (st.eventSeats e) n (heldSeat seat u now)) ∧
      (holdSeat st e n u d now maxH).2.seatHolds =
        updFun st.seatHolds (e, n) (some ⟨e, n, u, now, now + d⟩) ∧
      (holdSeat st e n u d now maxH).2.userHolds =
        updFun st.userHolds (u, e) (insert n (st.userHolds (u, e))) ∧
      (holdSeat st e n u d now maxH).2.reservations = st.reservations) := by
  unfold holdSeat
  split
  case h_1 => exact Or.inl ⟨rfl, _, rfl⟩
  case h_2 ev hev =>
    split
    case isTrue => exact Or.inl ⟨rfl, _, rfl⟩
    case isFalse hb =>
      split
      case h_1 => exact Or.inl ⟨rfl, _, rfl⟩
      case h_2 seat hseat =>
        split
        case isTrue => exact Or.inl ⟨rfl, _, rfl⟩
        case isFalse hst =>
          split
          case isTrue => exact Or.inl ⟨rfl, _, rfl⟩
          case isFalse hq =>
            have hq' : (st.userHolds (u, e)).card < maxH := by
              unfold getUserHoldCount at hq
              omega
            exact Or.inr ⟨ev, seat, hev, by omega, by omega, hseat,
              not_ne_iff.mp hst, hq', rfl, rfl, rfl, rfl, rfl, rfl⟩

theorem reserveSeat_cases (st : St) (e : String) (n : Nat) (u : String)
    (now : Nat) :
    ((reserveSeat st e n u now).2 = st ∧
      ∃ er, (reserveSeat st e n u now).1 = .error er) ∨
    (∃ hold seat, getHold st e n now = some hold ∧ hold.userId = u ∧
      hget (st.eventSeats e) n = some seat ∧
      (reserveSeat st e n u now).1 = .ok ⟨e, n, u, now⟩ ∧
      (reserveSeat st e n u now).2.events = st.events ∧
      (reserveSeat st e n u now).2.eventSeats =
        updFun st.eventSeats e (hset (st.eventSeats e) n (reservedSeat seat now)) ∧
      (reserveSeat st e n u now).2.seatHolds = updFun st.seatHolds (e, n) none ∧
      (reserveSeat st e n u now).2.reservations =
        updFun st.reservations (e, n) (some ⟨e, n, u, now⟩) ∧
      (reserveSeat st e n u now).2.userHolds =
        updFun st.userHolds (u, e) ((st.userHolds (u, e)).erase n)) := by
  unfold reserveSeat
  split
  case h_1 => exact Or.inl ⟨rfl, _, rfl⟩
  case h_2 hold hh =>
    split
    case isTrue => exact Or.inl ⟨rfl, _, rfl⟩
    case isFalse huid =>
      split
      case isTrue hexp =>
        have := (getHold_some hh).2
        omega
      case isFalse hexp =>
        split
        case h_1 => exact Or.inl ⟨rfl, _, rfl⟩
        case h_2 seat hseat =>
          exact Or.inr ⟨hold, seat, hh, not_ne_iff.mp huid, hseat,
            rfl, rfl, rfl, rfl, rfl, rfl⟩

theorem refreshSeatHold_cases (st : St) (e : String) (n : Nat) (u : String)
    (d now : Nat) :
    ((refreshSeatHold st e n u d now).2 = st ∧
      ∃ er, (refreshSeatHold st e n u d now).1 = .error er) ∨
    (∃ hold, getHold st e n now = some hold ∧ hold.userId = u ∧
      (refreshSeatHold st e n u d now).1 = .ok { hold with expiresAt := now + d } ∧
      (refreshSeatHold st e n u d now).2.events = st.events ∧
      (refreshSeatHold st e n u d now).2.eventSeats = st.eventSeats ∧
      (refreshSeatHold st e n u d now).2.seatHolds =
        updFun st.seatHolds (e, n) (some { hold with expiresAt := now + d }) ∧
      (refreshSeatHold st e n u d now).2.userHolds = st.userHolds ∧
      (refreshSeatHold st e n u d now).2.reservations = st.reservations) := by
  unfold refreshSeatHold
  split
  case h_1 => exact Or.inl ⟨rfl, _, rfl⟩
  case h_2 hold hh =>
    split
    case isTrue => exact Or.inl ⟨rfl, _, rfl⟩
    case isFalse huid =>
      split
      case isTrue hexp =>
        have := (getHold_some hh).2
        omega
      case isFalse hexp =>
        exact Or.inr ⟨hold, hh, not_ne_iff.mp huid, rfl, rfl, rfl, rfl, rfl, rfl⟩

theorem getSeatStatus_cases (st : St) (e : String) (n : Nat) (now : Nat) :
    (getSeatStatus st e n now).2 = st ∨
    (∃ seat, hget (st.eventSeats e) n = some seat ∧ seat.status = .held ∧
      getHold st e n now = none ∧
      (getSeatStatus st e n now).1 = .ok (releasedSeat seat) ∧
      (getSeatStatus st e n now).2 = (releaseSeat st e n).2) := by
  unfold getSeatStatus
  split
  case h_1 => exact Or.inl rfl
  case h_2 seat hseat =>
    split
    case isTrue hheld =>
      split
      case h_1 => exact Or.inl rfl
      case h_2 hh =>
        exact Or.inr ⟨seat, hseat, hheld, hh, rfl, rfl⟩
    case isFalse => exact Or.inl rfl

theorem createEvent_cases (st : St) (e : String) (T : Nat)
    (name desc : String) (now : Nat) :
    ((createEvent st e T name desc now).2 = st ∧
      ∃ er, (createEvent st e T name desc now).1 = .error er) ∨
    (st.events e = none ∧ 10 ≤ T ∧ T ≤ 1000 ∧
      (createEvent st e T name desc now).1 = .ok ⟨e, name, desc, T, now, .active⟩ ∧
      (createEvent st e T name desc now).2.events =
        updFun st.events e (some ⟨e, name, desc, T, now, .active⟩) ∧
      (createEvent st e T name desc now).2.eventSeats =
        updFun st.eventSeats e
          ((((List.range T).map (fun i => (i + 1, freshSeat e (i + 1))))).foldl
            (fun l p => hset l p.1 p.2) (st.eventSeats e)) ∧
      (createEvent st e T name desc now).2.seatHolds = st.seatHolds ∧
      (createEvent st e T name desc now).2.userHolds = st.userHolds ∧
      (createEvent st e T name desc now).2.reservations = st.reservations) := by
  unfold createEvent
  split
  case isTrue => exact Or.inl ⟨rfl, _, rfl⟩
  case isFalse hT =>
    split
    case h_1 => exact Or.inl ⟨rfl, _, rfl⟩
    case h_2 hev =>
      exact Or.inr ⟨hev, by omega, by omega, rfl, rfl, rfl, rfl, rfl, rfl⟩

/-! ### Invariant preservation -/

theorem inv_holdSeat {st : St} (e : String) (n : Nat) (u : String)
    (d now maxH : Nat) (hI : Inv st) : Inv (holdSeat st e n u d now maxH).2 := by
  rcases holdSeat_cases st e n u d now maxH with ⟨h, _⟩ |
    ⟨ev, seat, hev, _, _, hseat, havail, _, _, hpe, hps, hph, _, hpr⟩
  · rw [h]; exact hI
  · constructor
    · intro e' he'
      rw [hpe] at he'
      rw [hps]
      by_cases he : e' = e
      · subst he
        rw [hev] at he'
        cases he'
      · rw [updFun_ne _ _ _ he]
        exact hI.events_seats e' he'
    · intro e'
      rw [hps]
      by_cases he : e' = e
      · subst he
        rw [updFun_same]
        exact nodup_hset _ _ (hI.nodup e')
      · rw [updFun_ne _ _ _ he]
        exact hI.nodup e'
    · intro e' n' h hh
      rw [hph] at hh
      rw [hps]
      by_cases hk : (e', n') = (e, n)
      · rw [hk, updFun_same] at hh
        cases hh
        have hk1 : e' = e := congrArg Prod.fst hk
        have hk2 : n' = n := congrArg Prod.snd hk
        subst hk1; subst hk2
        refine ⟨heldSeat seat u now, ?_, rfl, rfl⟩
        rw [updFun_same, hget_hset_self]
      · rw [updFun_ne _ _ _ hk] at hh
        obtain ⟨s0, hs0, hstat, huid⟩ := hI.hold_held e' n' h hh
        refine ⟨s0, ?_, hstat, huid⟩
        by_cases he : e' = e
        · subst he
          rw [updFun_same]
          have hn : n' ≠ n := fun hc => hk (by rw [hc])
          rw [hget_hset_ne _ _ hn]
          exact hs0
        · rw [updFun_ne _ _ _ he]
          exact hs0
    · intro e' n' s hs
      rw [hps] at hs
      by_cases he : e' = e
      · subst he
        rw [updFun_same] at hs
        by_cases hn : n' = n
        · subst hn
          rw [hget_hset_self] at hs
          cases hs
          simp [heldSeat]
        · rw [hget_hset_ne _ _ hn] at hs
          exact hI.heldAt_iff e' n' s hs
      · rw [updFun_ne _ _ _ he] at hs
        exact hI.heldAt_iff e' n' s hs
    · intro e' n' s hs
      rw [hps] at hs
      by_cases he : e' = e
      · subst he
        rw [updFun_same] at hs
        by_cases hn : n' = n
        · subst hn
          rw [hget_hset_self] at hs
          cases hs
          have h0 := hI.reservedAt_iff e' n' seat hseat
          rw [havail] at h0
          simp at h0
          simp [heldSeat, h0]
        · rw [hget_hset_ne _ _ hn] at hs
          exact hI.reservedAt_iff e' n' s hs
      · rw [updFun_ne _ _ _ he] at hs
        exact hI.reservedAt_iff e' n' s hs

theorem inv_reserveSeat {st : St} (e : String) (n : Nat) (u : String)
    (now : Nat) (hI : Inv st) : Inv (reserveSeat st e n u now).2 := by
  rcases reserveSeat_cases st e n u now with ⟨h, _⟩ |
    ⟨hold, seat, hh, huid, hseat, _, hpe, hps, hph, _, _⟩
  · rw [h]; exact hI
  · have hheld : seat.status = .held ∧ seat.userId = some hold.userId := by
      obtain ⟨s0, hs0, hstat, hu⟩ :=
        hI.hold_held e n hold (getHold_some hh).1
      rw [hseat] at hs0
      cases hs0
      exact ⟨hstat, hu⟩
    constructor
    · intro e' he'
      rw [hpe] at he'
      rw [hps]
      by_cases he : e' = e
      · subst he
        have h0 := hI.events_seats e' he'
        rw [h0] at hseat
        simp [hget] at hseat
      · rw [updFun_ne _ _ _ he]
        exact hI.events_seats e' he'
    · intro e'
      rw [hps]
      by_cases he : e' = e
      · subst he
        rw [updFun_same]
        exact nodup_hset _ _ (hI.nodup e')
      · rw [updFun_ne _ _ _ he]
        exact hI.nodup e'
    · intro e' n' h hh'
      rw [hph] at hh'
      rw [hps]
      by_cases hk : (e', n') = (e, n)
      · rw [hk, updFun_same] at hh'
        cases hh'
      · rw [updFun_ne _ _ _ hk] at hh'
        obtain ⟨s0, hs0, hstat, huid'⟩ := hI.hold_held e' n' h hh'
        refine ⟨s0, ?_, hstat, huid'⟩
        by_cases he : e' = e
        · subst he
          rw [updFun_same]
          have hn : n' ≠ n := fun hc => hk (by rw [hc])
          rw [hget_hset_ne _ _ hn]
          exact hs0
        · rw [updFun_ne _ _ _ he]
          exact hs0
    · intro e' n' s hs
      rw [hps] at hs
      by_cases he : e' = e
      · subst he
        rw [updFun_same] at hs
        by_cases hn : n' = n
        · subst hn
          rw [hget_hset_self] at hs
          cases hs
          have h0 := hI.heldAt_iff e' n' seat hseat
          rw [hheld.1] at h0
          simp at h0
          simp [reservedSeat, h0]
        · rw [hget_hset_ne _ _ hn] at hs
          exact hI.heldAt_iff e' n' s hs
      · rw [updFun_ne _ _ _ he] at hs
        exact hI.heldAt_iff e' n' s hs
    · intro e' n' s hs
      rw [hps] at hs
      by_cases he : e' = e
      · subst he
        rw [updFun_same] at hs
        by_cases hn : n' = n
        · subst hn
          rw [hget_hset_self] at hs
          cases hs
          simp [reservedSeat]
        · rw [hget_hset_ne _ _ hn] at hs
          exact hI.reservedAt_iff e' n' s hs
      · rw [updFun_ne _ _ _ he] at hs
        exact hI.reservedAt_iff e' n' s hs

theorem inv_refreshSeatHold {st : St} (e : String) (n : Nat) (u : String)
    (d now : Nat) (hI : Inv st) : Inv (refreshSeatHold st e n u d now).2 := by
  rcases refreshSeatHold_cases st e n u d now with ⟨h, _⟩ |
    ⟨hold, hh, huid, _, hpe, hps, hph, _, _⟩
  · rw [h]; exact hI
  · constructor
    · intro e' he'
      rw [hpe] at he'
      rw [hps]
      exact hI.events_seats e' he'
    · intro e'
      rw [hps]
      exact hI.nodup e'
    · intro e' n' h hh'
      rw [hph] at hh'
      rw [hps]
      by_cases hk : (e', n') = (e, n)
      · rw [hk, updFun_same] at hh'
        cases hh'
        have hk1 : e' = e := congrArg Prod.fst hk
        have hk2 : n' = n := congrArg Prod.snd hk
        subst hk1; subst hk2
        obtain ⟨s0, hs0, hstat, hu⟩ :=
          hI.hold_held e' n' hold (getHold_some hh).1
        exact ⟨s0, hs0, hstat, hu⟩
      · rw [updFun_ne _ _ _ hk] at hh'
        exact hI.hold_held e' n' h hh'
    · intro e' n' s hs
      rw [hps] at hs
      exact hI.heldAt_iff e' n' s hs
    · intro e' n' s hs
      rw [hps] at hs
      exact hI.reservedAt_iff e' n' s hs

theorem inv_getSeatStatus {st : St} (e : String) (n : Nat) (now : Nat)
    (hI : Inv st) : Inv (getSeatStatus st e n now).2 := by
  rcases getSeatStatus_cases st e n now with h | ⟨seat, _, _, _, _, h⟩
  · rw [h]; exact hI
  · rw [h]
    exact inv_releaseSeat e n hI

theorem inv_createEvent {st : St} (e : String) (T : Nat) (name desc : String)
    (now : Nat) (hI : Inv st) : Inv (createEvent st e T name desc now).2 := by
  rcases createEvent_cases st e T name desc now with ⟨h, _⟩ |
    ⟨hev, _, _, _, hpe, hps, hph, _, _⟩
  · rw [h]; exact hI
  · have hempty : st.eventSeats e = [] := hI.events_seats e hev
    have hgetNew : ∀ m : Nat,
        hget ((((List.range T).map (fun i => (i + 1, freshSeat e (i + 1))))).foldl
            (fun l p => hset l p.1 p.2) (st.eventSeats e)) m =
          if 1 ≤ m ∧ m ≤ T then some (freshSeat e m) else none := by
      intro m
      rw [hget_foldl_hset _ _ _ (keys_range_map (freshSeat e) T)]
      rw [find?_range_map (freshSeat e) T m]
      by_cases hm : 1 ≤ m ∧ m ≤ T
      · rw [if_pos hm, if_pos hm]
      · rw [if_neg hm, if_neg hm, hempty]
        rfl
    constructor
    · intro e' he'
      rw [hpe] at he'
      rw [hps]
      by_cases he : e' = e
      · subst he
        rw [updFun_same] at he'
        cases he'
      · rw [updFun_ne _ _ _ he] at he'
        rw [updFun_ne _ _ _ he]
        exact hI.events_seats e' he'
    · intro e'
      rw [hps]
      by_cases he : e' = e
      · subst he
        rw [updFun_same]
        exact nodup_foldl_hset _ _ (hI.nodup e')
      · rw [updFun_ne _ _ _ he]
        exact hI.nodup e'
    · intro e' n' h hh'
      rw [hph] at hh'
      rw [hps]
      by_cases he : e' = e
      · subst he
        obtain ⟨s0, hs0, _, _⟩ := hI.hold_held e' n' h hh'
        rw [hempty] at hs0
        simp [hget] at hs0
      · rw [updFun_ne _ _ _ he]
        exact hI.hold_held e' n' h hh'
    · intro e' n' s hs
      rw [hps] at hs
      by_cases he : e' = e
      · subst he
        rw [updFun_same, hgetNew n'] at hs
        by_cases hm : 1 ≤ n' ∧ n' ≤ T
        · rw [if_pos hm] at hs
          cases hs
          simp [freshSeat]
        · rw [if_neg hm] at hs
          cases hs
      · rw [updFun_ne _ _ _ he] at hs
        exact hI.heldAt_iff e' n' s hs
    · intro e' n' s hs
      rw [hps] at hs
      by_cases he : e' = e
      · subst he
        rw [updFun_same, hgetNew n'] at hs
        by_cases hm : 1 ≤ n' ∧ n' ≤ T
        · rw [if_pos hm] at hs
          cases hs
          simp [freshSeat]
        · rw [if_neg hm] at hs
          cases hs
      · rw [updFun_ne _ _ _ he] at hs
        exact hI.reservedAt_iff e' n' s hs

theorem inv_availLoop (e : String) (now : Nat) :
    ∀ (entries : List (Nat × Seat)) (st : St), Inv st →
    Inv (availLoop st e now entries).2 := by
  intro entries
  induction entries with
  | nil => intro st h; exact h
  | cons p rest ih =>
    intro st h
    rcases p with ⟨m, seat⟩
    unfold availLoop
    split
    · exact ih st h
    · split
      · split
        · exact ih st h
        · exact ih _ (inv_releaseSeat e m h)
      · exact ih st h

theorem inv_getAvailableSeats {st : St} (e : String) (now : Nat)
    (hI : Inv st) : Inv (getAvailableSeats st e now).2 := by
  unfold getAvailableSeats
  split
  · exact hI
  · exact inv_availLoop e now _ st hI

theorem inv_applyOp {st : St} (op : Op) (hI : Inv st) : Inv (applyOp st op) := by
  cases op with
  | create e T name desc now => exact inv_createEvent e T name desc now hI
  | hold e n u d now maxH => exact inv_holdSeat e n u d now maxH hI
  | reserve e n u now => exact inv_reserveSeat e n u now hI
  | release e n => exact inv_releaseSeat e n hI
  | refresh e n u d now => exact inv_refreshSeatHold e n u d now hI
  | getStatus e n now => exact inv_getSeatStatus e n now hI
  | listAvailable e now => exact inv_getAvailableSeats e now hI

theorem inv_runOps (ops : List Op) :
    ∀ st : St, Inv st → Inv (runOps st ops) := by
  induction ops with
  | nil => intro st h; exact h
  | cons op rest ih =>
    intro st h
    exact ih _ (inv_applyOp op h)

theorem inv_reachable (ops : List Op) : Inv (runOps initSt ops) :=
  inv_runOps ops initSt inv_initSt

/-! ### Seat-level transition lemmas -/

theorem releaseSeat_hget (st : St) (e : String) (n : Nat)
    (e' : String) (n' : Nat) :
    hget ((releaseSeat st e n).2.eventSeats e') n' = hget (st.eventSeats e') n' ∨
    ((e', n') = (e, n) ∧ ∃ seat, hget (st.eventSeats e) n = some seat ∧
      seat.status = .held ∧
      hget ((releaseSeat st e n).2.eventSeats e') n' = some (releasedSeat seat)) := by
  rcases releaseSeat_cases st e n with h | ⟨seat, hseat, hheld, _, _, hps, _, _, _⟩
  · rw [h]; exact Or.inl rfl
  · rw [hps]
    by_cases he : e' = e
    · subst he
      rw [updFun_same]
      by_cases hn : n' = n
      · subst hn
        exact Or.inr ⟨rfl, seat, hseat, hheld, hget_hset_self _ _ _⟩
      · exact Or.inl (hget_hset_ne _ _ hn)
    · rw [updFun_ne _ _ _ he]
      exact Or.inl rfl

theorem releaseSeat_R {st : St} {e : String} {n : Nat}
    {e' : String} {n' : Nat} {seat seat' : Seat}
    (hb : hget (st.eventSeats e') n' = some seat)
    (ha : hget ((releaseSeat st e n).2.eventSeats e') n' = some seat') :
    seat' = seat ∨ (seat.status = .held ∧ seat' = releasedSeat seat) := by
  rcases releaseSeat_hget st e n e' n' with h | ⟨hk, s0, hs0, hheld, hpost⟩
  · rw [h, hb] at ha
    cases ha
    exact Or.inl rfl
  · have hk1 : e' = e := congrArg Prod.fst hk
    have hk2 : n' = n := congrArg Prod.snd hk
    subst hk1; subst hk2
    rw [hb] at hs0
    cases hs0
    rw [hpost] at ha
    cases ha
    exact Or.inr ⟨hheld, rfl⟩

theorem availLoop_R (e : String) (now : Nat) :
    ∀ (entries : List (Nat × Seat)) (st : St) (e' : String) (n' : Nat)
      (seat seat' : Seat),
    hget (st.eventSeats e') n' = some seat →
    hget ((availLoop st e now entries).2.eventSeats e') n' = some seat' →
    seat' = seat ∨ (seat.status = .held ∧ seat' = releasedSeat seat) := by
  intro entries
  induction entries with
  | nil =>
    intro st e' n' seat seat' hb ha
    unfold availLoop at ha
    rw [hb] at ha
    cases ha
    exact Or.inl rfl
  | cons p rest ih =>
    intro st e' n' seat seat' hb ha
    rcases p with ⟨m, s0⟩
    unfold availLoop at ha
    split at ha
    · exact ih st e' n' seat seat' hb ha
    · split at ha
      · split at ha
        · exact ih st e' n' seat seat' hb ha
        · rcases releaseSeat_hget st e m e' n' with h | ⟨hk, s0, hs0, hheld0, hpost⟩
          · have hmid : hget (((releaseSeat st e m).2).eventSeats e') n' = some seat := by
              rw [h]; exact hb
            exact ih _ e' n' seat seat' hmid ha
          · have hk1 : e' = e := congrArg Prod.fst hk
            have hk2 : n' = m := congrArg Prod.snd hk
            subst hk1; subst hk2
            rw [hb] at hs0
            cases hs0
            have hR2 := ih _ e' n' (releasedSeat seat) seat' hpost ha
            rcases hR2 with rfl | ⟨hc, _⟩
            · exact Or.inr ⟨hheld0, rfl⟩
            · rw [show (releasedSeat seat).status = .available from rfl] at hc
              cases hc
      · exact ih st e' n' seat seat' hb ha

/-- The effect of one engine operation on one durable seat record:
a reserved seat stays reserved, and a seat can only become reserved
through `reserve`, which requires a live hold whose holder matches the
seat's recorded holder. -/
theorem applyOp_transition {st : St} (hI : Inv st) (op : Op) {e : String}
    {n : Nat} {seat seat' : Seat}
    (hb : hget (st.eventSeats e) n = some seat)
    (ha : hget ((applyOp st op).eventSeats e) n = some seat') :
    (seat.status = .reserved → seat'.status = .reserved) ∧
    (seat'.status = .reserved → seat.status = .reserved ∨
      (seat.status = .held ∧ ∃ u now hold, op = .reserve e n u now ∧
        getHold st e n now = some hold ∧ hold.userId = u ∧
        seat.userId = some u)) := by
  cases op with
  | create e0 T name desc now =>
    rcases createEvent_cases st e0 T name desc now with ⟨h, _⟩ |
      ⟨hev, _, _, _, _, hps, _, _, _⟩
    · simp only [applyOp] at ha
      rw [h, hb] at ha
      cases ha
      exact ⟨fun h => h, fun _ => Or.inl (by assumption)⟩
    · simp only [applyOp] at ha
      rw [hps] at ha
      by_cases he : e = e0
      · subst he
        rw [hI.events_seats e hev] at hb
        simp [hget] at hb
      · rw [updFun_ne _ _ _ he, hb] at ha
        cases ha
        exact ⟨fun h => h, fun _ => Or.inl (by assumption)⟩
  | hold e0 n0 u d now maxH =>
    rcases holdSeat_cases st e0 n0 u d now maxH with ⟨h, _⟩ |
      ⟨ev, s0, _, _, _, hs0, havail, _, _, _, hps, _, _, _⟩
    · simp only [applyOp] at ha
      rw [h, hb] at ha
      cases ha
      exact ⟨fun h => h, fun _ => Or.inl (by assumption)⟩
    · simp only [applyOp] at ha
      rw [hps] at ha
      by_cases he : e = e0
      · subst he
        rw [updFun_same] at ha
        by_cases hn : n = n0
        · subst hn
          rw [hget_hset_self] at ha
          cases ha
          rw [hs0] at hb
          cases hb
          refine ⟨fun h => ?_, fun h => ?_⟩
          · rw [havail] at h; cases h
          · rw [show (heldSeat seat u now).status = .held from rfl] at h
            cases h
        · rw [hget_hset_ne _ _ hn, hb] at ha
          cases ha
          exact ⟨fun h => h, fun _ => Or.inl (by assumption)⟩
      · rw [updFun_ne _ _ _ he, hb] at ha
        cases ha
        exact ⟨fun h => h, fun _ => Or.inl (by assumption)⟩
  | reserve e0 n0 u now =>
    rcases reserveSeat_cases st e0 n0 u now with ⟨h, _⟩ |
      ⟨hold, s0, hh, huid, hs0, _, _, hps, _, _, _⟩
    · simp only [applyOp] at ha
      rw [h, hb] at ha
      cases ha
      exact ⟨fun h => h, fun _ => Or.inl (by assumption)⟩
    · simp only [applyOp] at ha
      rw [hps] at ha
      by_cases he : e = e0
      · subst he
        rw [updFun_same] at ha
        by_cases hn : n = n0
        · subst hn
          rw [hget_hset_self] at ha
          cases ha
          rw [hs0] at hb
          cases hb
          have hheld : seat.status = .held ∧ seat.userId = some hold.userId := by
            obtain ⟨s1, hs1, hstat, hu⟩ :=
              hI.hold_held e n hold (getHold_some hh).1
            rw [hs0] at hs1
            cases hs1
            exact ⟨hstat, hu⟩
          refine ⟨fun _ => rfl, fun _ => Or.inr ?_⟩
          exact ⟨hheld.1, u, now, hold, rfl, hh, huid, by rw [hheld.2, huid]⟩
        · rw [hget_hset_ne _ _ hn, hb] at ha
          cases ha
          exact ⟨fun h => h, fun _ => Or.inl (by assumption)⟩
      · rw [updFun_ne _ _ _ he, hb] at ha
        cases ha
        exact ⟨fun h => h, fun _ => Or.inl (by assumption)⟩
  | release e0 n0 =>
    have hR := releaseSeat_R hb ha
    rcases hR with rfl | ⟨hheld, rfl⟩
    · exact ⟨fun h => h, fun _ => Or.inl (by assumption)⟩
    · refine ⟨fun h => ?_, fun h => ?_⟩
      · rw [hheld] at h; cases h
      · rw [show (releasedSeat seat).status = .available from rfl] at h
        cases h
  | refresh e0 n0 u d now =>
    rcases refreshSeatHold_cases st e0 n0 u d now with ⟨h, _⟩ |
      ⟨hold, _, _, _, _, hps, _, _, _⟩
    · simp only [applyOp] at ha
      rw [h, hb] at ha
      cases ha
      exact ⟨fun h => h, fun _ => Or.inl (by assumption)⟩
    · simp only [applyOp] at ha
      rw [hps, hb] at ha
      cases ha
      exact ⟨fun h => h, fun _ => Or.inl (by assumption)⟩
  | getStatus e0 n0 now =>
    rcases getSeatStatus_cases st e0 n0 now with h | ⟨s0, _, _, _, _, h⟩
    · simp only [applyOp] at ha
      rw [h, hb] at ha
      cases ha
      exact ⟨fun h => h, fun _ => Or.inl (by assumption)⟩
    · simp only [applyOp] at ha
      rw [h] at ha
      have hR := releaseSeat_R hb ha
      rcases hR with rfl | ⟨hheld, rfl⟩
      · exact ⟨fun h => h, fun _ => Or.inl (by assumption)⟩
      · refine ⟨fun h => ?_, fun h => ?_⟩
        · rw [hheld] at h; cases h
        · rw [show (releasedSeat seat).status = .available from rfl] at h
          cases h
  | listAvailable e0 now =>
    simp only [applyOp] at ha
    unfold getAvailableSeats at ha
    split at ha
    · dsimp only at ha
      rw [hb] at ha
      cases ha
      exact ⟨fun h => h, fun _ => Or.inl (by assumption)⟩
    · dsimp only at ha
      have hR := availLoop_R e0 now (st.eventSeats e0) st e n seat seat' hb ha
      rcases hR with rfl | ⟨hheld, rfl⟩
      · exact ⟨fun h => h, fun _ => Or.inl (by assumption)⟩
      · refine ⟨fun h => ?_, fun h => ?_⟩
        · rw [hheld] at h; cases h
        · rw [show (releasedSeat seat).status = .available from rfl] at h
          cases h

/-! ### Claim C5 -/

/-- Claim C5, counterexample: in the reachable state obtained by creating
an event, holding seat 3 and then reserving it, the reserved seat record
carries BOTH timestamps — `reserveSeat` writes `reservedAt` but does not
clear `heldAt` — refuting "the two timestamps are never both present". -/
theorem c5_counterexample :
    (hget (((runOps initSt [.create "e" 10 "ev" "" 0, .hold "e" 3 "A" 60 5 5,
        .reserve "e" 3 "A" 20]).eventSeats "e")) 3).map
      (fun s => (s.status, s.heldAt.isSome, s.reservedAt.isSome))
      = some (.reserved, true, true) := by decide

/-- Claim C5 (amended): in every reachable state, `reservedAt` is non-null
exactly on reserved seats, but `heldAt` is non-null on held AND on
reserved seats (reserve carries the held-at timestamp over), so a
reserved seat has both timestamps present; every transition operation
preserves this. -/
theorem c5_timestamps_amended (ops : List Op) (e : String) (n : Nat)
    (seat : Seat)
    (hs : hget ((runOps initSt ops).eventSeats e) n = some seat) :
    (seat.heldAt.isSome ↔ (seat.status = .held ∨ seat.status = .reserved)) ∧
    (seat.reservedAt.isSome ↔ seat.status = .reserved) := by
  have hI := inv_reachable ops
  have h1 := hI.heldAt_iff e n seat hs
  have h2 := hI.reservedAt_iff e n seat hs
  constructor
  · rw [h1]
    cases seat.status <;> simp
  · exact h2

/-- A reachable held seat used to instantiate the amended C5 theorem. -/
def c5WitnessSeat : Seat :=
  { eventId := "e", seatNumber := 3, status := .held,
    userId := some "A", heldAt := some 5, reservedAt := none }

theorem c5_timestamps_amended_witness :
    (c5WitnessSeat.heldAt.isSome ↔
      (c5WitnessSeat.status = .held ∨ c5WitnessSeat.status = .reserved)) ∧
    (c5WitnessSeat.reservedAt.isSome ↔ c5WitnessSeat.status = .reserved) :=
  c5_timestamps_amended [.create "e" 10 "ev" "" 0, .hold "e" 3 "A" 60 5 5]
    "e" 3 c5WitnessSeat (by decide)

/-! ### Claim C8 -/

/-- Claim C8: seat lifecycle is monotone.  Along any operation sequence
from the empty store, a reserved seat never becomes available or held
again, an available seat never becomes reserved in one step, and the
step that reserves a seat is a `reserve` call finding a live hold whose
holder is the seat's recorded holder. -/
theorem c8_lifecycle_monotonicity (ops : List Op) (op : Op) (e : String)
    (n : Nat) (seat seat' : Seat)
    (hb : hget ((runOps initSt ops).eventSeats e) n = some seat)
    (ha : hget ((applyOp (runOps initSt ops) op).eventSeats e) n = some seat') :
    (seat.status = .reserved → seat'.status = .reserved) ∧
    (seat.status = .available → seat'.status ≠ .reserved) ∧
    (seat'.status = .reserved → seat.status ≠ .reserved →
      seat.status = .held ∧ ∃ u now hold, op = .reserve e n u now ∧
        getHold (runOps initSt ops) e n now = some hold ∧ hold.userId = u ∧
        seat.userId = some u) := by
  have hI := inv_reachable ops
  have ht := applyOp_transition hI op hb ha
  refine ⟨ht.1, ?_, ?_⟩
  · intro hav hres
    rcases ht.2 hres with h | ⟨hheld, _⟩
    · rw [hav] at h; cases h
    · rw [hav] at hheld; cases hheld
  · intro hres hnres
    rcases ht.2 hres with h | hgood
    · exact absurd h hnres
    · exact hgood

/-- The reserved seat record reached by create → hold → reserve. -/
def c8WitnessSeat : Seat :=
  { eventId := "e", seatNumber := 3, status := .reserved,
    userId := some "A", heldAt := some 5, reservedAt := some 20 }

theorem c8_lifecycle_monotonicity_witness :
    (c8WitnessSeat.status = .reserved → c8WitnessSeat.status = .reserved) ∧
    (c8WitnessSeat.status = .available → c8WitnessSeat.status ≠ .reserved) ∧
    (c8WitnessSeat.status = .reserved → c8WitnessSeat.status ≠ .reserved →
      c8WitnessSeat.status = .held ∧ ∃ u now hold,
        (Op.release "e" 3) = .reserve "e" 3 u now ∧
        getHold (runOps initSt [.create "e" 10 "ev" "" 0,
          .hold "e" 3 "A" 60 5 5, .reserve "e" 3 "A" 20]) "e" 3 now = some hold ∧
        hold.userId = u ∧ c8WitnessSeat.userId = some u) :=
  c8_lifecycle_monotonicity
    [.create "e" 10 "ev" "" 0, .hold "e" 3 "A" 60 5 5, .reserve "e" 3 "A" 20]
    (.release "e" 3) "e" 3 c8WitnessSeat c8WitnessSeat (by decide) (by decide)

/-! ### Exhaustive branch characterizations -/

theorem releaseSeat_split (st : St) (e : String) (n : Nat) :
    (hget (st.eventSeats e) n = none ∧
      releaseSeat st e n = (.error .seatNotFound, st)) ∨
    (∃ seat, hget (st.eventSeats e) n = some seat ∧ seat.status ≠ .held ∧
      releaseSeat st e n = (.ok (), st)) ∨
    (∃ seat, hget (st.eventSeats e) n = some seat ∧ seat.status = .held ∧
      (releaseSeat st e n).1 = .ok () ∧
      (releaseSeat st e n).2.events = st.events ∧
      (releaseSeat st e n).2.eventSeats =
        updFun st.eventSeats e (hset (st.eventSeats e) n (releasedSeat seat)) ∧
      (releaseSeat st e n).2.seatHolds = updFun st.seatHolds (e, n) none ∧
      (releaseSeat st e n).2.reservations = st.reservations ∧
      (releaseSeat st e n).2.userHolds =
        (match seat.userId with
          | some u => updFun st.userHolds (u, e) ((st.userHolds (u, e)).erase n)
          | none => st.userHolds)) := by
  unfold releaseSeat
  split
  case h_1 h0 => exact Or.inl ⟨h0, rfl⟩
  case h_2 seat hseat =>
    split
    case isTrue hheld =>
      refine Or.inr (Or.inr ⟨seat, hseat, hheld, ?_⟩)
      cases huid : seat.userId <;>
        simp [releasedSeat, huid]
    case isFalse hheld => exact Or.inr (Or.inl ⟨seat, hseat, hheld, rfl⟩)

/-- Releasing a durably held seat: the seat record is rewritten as
available with holder fields cleared, the hold key is deleted, and the
seat leaves the holder's user-hold set. -/
theorem releaseSeat_held {st : St} {e : String} {n : Nat} {seat : Seat}
    (hseat : hget (st.eventSeats e) n = some seat)
    (hheld : seat.status = .held) :
    (releaseSeat st e n).1 = .ok () ∧
    hget ((releaseSeat st e n).2.eventSeats e) n = some (releasedSeat seat) ∧
    (releaseSeat st e n).2.seatHolds (e, n) = none ∧
    (∀ u0, seat.userId = some u0 → n ∉ (releaseSeat st e n).2.userHolds (u0, e)) := by
  rcases releaseSeat_split st e n with ⟨h0, _⟩ | ⟨s0, hs0, hnh, _⟩ |
    ⟨s0, hs0, _, h1, _, hps, hph, _, hpu⟩
  · rw [hseat] at h0; cases h0
  · rw [hseat] at hs0
    cases hs0
    exact absurd hheld hnh
  · rw [hseat] at hs0
    cases hs0
    refine ⟨h1, ?_, ?_, ?_⟩
    · rw [hps, updFun_same, hget_hset_self]
    · rw [hph, updFun_same]
    · intro u0 huid
      rw [hpu, huid]
      simp only [updFun_same]
      exact Finset.not_mem_erase n _

theorem getSeatStatus_split (st : St) (e : String) (n : Nat) (now : Nat) :
    (hget (st.eventSeats e) n = none ∧
      getSeatStatus st e n now = (.error .seatNotFound, st)) ∨
    (∃ seat, hget (st.eventSeats e) n = some seat ∧ seat.status ≠ .held ∧
      getSeatStatus st e n now = (.ok seat, st)) ∨
    (∃ seat hold, hget (st.eventSeats e) n = some seat ∧ seat.status = .held ∧
      getHold st e n now = some hold ∧
      getSeatStatus st e n now = (.ok seat, st)) ∨
    (∃ seat, hget (st.eventSeats e) n = some seat ∧ seat.status = .held ∧
      getHold st e n now = none ∧
      getSeatStatus st e n now = (.ok (releasedSeat seat), (releaseSeat st e n).2)) := by
  unfold getSeatStatus
  split
  case h_1 h0 => exact Or.inl ⟨h0, rfl⟩
  case h_2 seat hseat =>
    split
    case isTrue hheld =>
      split
      case h_1 hold hh =>
        exact Or.inr (Or.inr (Or.inl ⟨seat, hold, hseat, hheld, hh, rfl⟩))
      case h_2 hh =>
        exact Or.inr (Or.inr (Or.inr ⟨seat, hseat, hheld, hh, rfl⟩))
    case isFalse hheld => exact Or.inr (Or.inl ⟨seat, hseat, hheld, rfl⟩)

theorem holdSeat_split (st : St) (e : String) (n : Nat) (u : String)
    (d now maxH : Nat) :
    (st.events e = none ∧
      holdSeat st e n u d now maxH = (.error .eventNotFound, st)) ∨
    (∃ ev, st.events e = some ev ∧ (n < 1 ∨ n > ev.totalSeats) ∧
      holdSeat st e n u d now maxH = (.error .invalidSeatNumber, st)) ∨
    (∃ ev, st.events e = some ev ∧ 1 ≤ n ∧ n ≤ ev.totalSeats ∧
      hget (st.eventSeats e) n = none ∧
      holdSeat st e n u d now maxH = (.error .seatNotFound, st)) ∨
    (∃ ev seat, st.events e = some ev ∧ 1 ≤ n ∧ n ≤ ev.totalSeats ∧
      hget (st.eventSeats e) n = some seat ∧ seat.status ≠ .available ∧
      holdSeat st e n u d now maxH = (.error .seatNotAvailable, st)) ∨
    (∃ ev seat, st.events e = some ev ∧ 1 ≤ n ∧ n ≤ ev.totalSeats ∧
      hget (st.eventSeats e) n = some seat ∧ seat.status = .available ∧
      (st.userHolds (u, e)).card ≥ maxH ∧
      holdSeat st e n u d now maxH = (.error .quotaExceeded, st)) ∨
    (∃ ev seat, st.events e = some ev ∧ 1 ≤ n ∧ n ≤ ev.totalSeats ∧
      hget (st.eventSeats e) n = some seat ∧ seat.status = .available ∧
      (st.userHolds (u, e)).card < maxH ∧
      (holdSeat st e n u d now maxH).1 = .ok ⟨e, n, u, now, now + d⟩) := by
  unfold holdSeat
  split
  case h_1 hev => exact Or.inl ⟨hev, rfl⟩
  case h_2 ev hev =>
    split
    case isTrue hb => exact Or.inr (Or.inl ⟨ev, hev, hb, rfl⟩)
    case isFalse hb =>
      split
      case h_1 hseat =>
        exact Or.inr (Or.inr (Or.inl ⟨ev, hev, by omega, by omega, hseat, rfl⟩))
      case h_2 seat hseat =>
        split
        case isTrue hst =>
          exact Or.inr (Or.inr (Or.inr (Or.inl
            ⟨ev, seat, hev, by omega, by omega, hseat, hst, rfl⟩)))
        case isFalse hst =>
          split
          case isTrue hq =>
            refine Or.inr (Or.inr (Or.inr (Or.inr (Or.inl
              ⟨ev, seat, hev, by omega, by omega, hseat, not_ne_iff.mp hst, ?_, rfl⟩))))
            unfold getUserHoldCount at hq
            omega
          case isFalse hq =>
            refine Or.inr (Or.inr (Or.inr (Or.inr (Or.inr
              ⟨ev, seat, hev, by omega, by omega, hseat, not_ne_iff.mp hst, ?_, rfl⟩))))
            unfold getUserHoldCount at hq
            omega

theorem reserveSeat_split (st : St) (e : String) (n : Nat) (u : String)
    (now : Nat) :
    (getHold st e n now = none ∧
      reserveSeat st e n u now = (.error .notHeld, st)) ∨
    (∃ hold, getHold st e n now = some hold ∧ hold.userId ≠ u ∧
      reserveSeat st e n u now = (.error .heldByOther, st)) ∨
    (∃ hold, getHold st e n now = some hold ∧ hold.userId = u ∧
      hget (st.eventSeats e) n = none ∧
      reserveSeat st e n u now = (.error .seatNotFound, st)) ∨
    (∃ hold seat, getHold st e n now = some hold ∧ hold.userId = u ∧
      hget (st.eventSeats e) n = some seat ∧
      (reserveSeat st e n u now).1 = .ok ⟨e, n, u, now⟩ ∧
      (reserveSeat st e n u now).2.events = st.events ∧
      (reserveSeat st e n u now).2.eventSeats =
        updFun st.eventSeats e (hset (st.eventSeats e) n (reservedSeat seat now)) ∧
      (reserveSeat st e n u now).2.seatHolds = updFun st.seatHolds (e, n) none ∧
      (reserveSeat st e n u now).2.reservations =
        updFun st.reservations (e, n) (some ⟨e, n, u, now⟩) ∧
      (reserveSeat st e n u now).2.userHolds =
        updFun st.userHolds (u, e) ((st.userHolds (u, e)).erase n)) := by
  unfold reserveSeat
  split
  case h_1 hh => exact Or.inl ⟨hh, rfl⟩
  case h_2 hold hh =>
    split
    case isTrue huid => exact Or.inr (Or.inl ⟨hold, hh, huid, rfl⟩)
    case isFalse huid =>
      split
      case isTrue hexp =>
        have := (getHold_some hh).2
        omega
      case isFalse hexp =>
        split
        case h_1 hseat =>
          exact Or.inr (Or.inr (Or.inl ⟨hold, hh, not_ne_iff.mp huid, hseat, rfl⟩))
        case h_2 seat hseat =>
          exact Or.inr (Or.inr (Or.inr ⟨hold, seat, hh, not_ne_iff.mp huid, hseat,
            rfl, rfl, rfl, rfl, rfl, rfl⟩))

/-! ### Claim C2 -/

/-- Claim C2: quota enforcement is exact.  For a hold attempt that passes
the earlier checks (event exists, seat number in range, seat record
present and available), the attempt fails with `quotaExceeded` exactly
when the holder's user-hold set already has cardinality ≥ the configured
maximum, and succeeds (returning the hold) when the cardinality is below
the maximum. -/
theorem c2_quota_exact (st : St) (e : String) (n : Nat) (u : String)
    (d now maxH : Nat) (ev : Event) (seat : Seat)
    (hev : st.events e = some ev) (h1 : 1 ≤ n) (h2 : n ≤ ev.totalSeats)
    (hseat : hget (st.eventSeats e) n = some seat)
    (havail : seat.status = .available) :
    ((st.userHolds (u, e)).card ≥ maxH →
      (holdSeat st e n u d now maxH).1 = .error .quotaExceeded) ∧
    ((st.userHolds (u, e)).card < maxH →
      (holdSeat st e n u d now maxH).1 = .ok ⟨e, n, u, now, now + d⟩) := by
  rcases holdSeat_split st e n u d now maxH with
    ⟨h0, _⟩ | ⟨ev0, hev0, hb, _⟩ | ⟨ev0, hev0, _, _, h0, _⟩ |
    ⟨ev0, s0, hev0, _, _, hs0, hna, _⟩ |
    ⟨ev0, s0, hev0, _, _, hs0, _, hq, heq⟩ |
    ⟨ev0, s0, hev0, _, _, hs0, _, hq, hok⟩
  · rw [hev] at h0; cases h0
  · rw [hev] at hev0; cases hev0; omega
  · rw [hseat] at h0; cases h0
  · rw [hseat] at hs0; cases hs0; exact absurd havail hna
  · exact ⟨fun _ => by rw [heq], fun hlt => by omega⟩
  · exact ⟨fun hge => by omega, fun _ => hok⟩

/-- A state with one available seat where holder A already holds two
other seats of the event. -/
def c2St : St :=
  { events := updFun (fun _ => none) "e"
      (some ⟨"e", "ev", "", 10, 0, .active⟩),
    eventSeats := updFun (fun _ => []) "e" [(1, freshSeat "e" 1)],
    seatHolds := fun _ => none,
    userHolds := updFun (fun _ => ∅) ("A", "e") {7, 8},
    reservations := fun _ => none }

theorem c2_quota_exact_witness :
    ((c2St.userHolds ("A", "e")).card ≥ 2 →
      (holdSeat c2St "e" 1 "A" 60 0 2).1 = .error .quotaExceeded) ∧
    ((c2St.userHolds ("A", "e")).card < 2 →
      (holdSeat c2St "e" 1 "A" 60 0 2).1 = .ok ⟨"e", 1, "A", 0, 60⟩) :=
  c2_quota_exact c2St "e" 1 "A" 60 0 2 ⟨"e", "ev", "", 10, 0, .active⟩
    (freshSeat "e" 1) (by decide) (by decide) (by decide) (by decide) (by decide)

/-! ### Claim C6 -/

/-- Claim C6: release is idempotent.  On an absent seat record it fails
with `seatNotFound` leaving the state unchanged — and that is its only
failure; on a seat that is not held (available or reserved) it is a
no-op returning success; it mutates state only when the seat is held. -/
theorem c6_release_idempotent (st : St) (e : String) (n : Nat) :
    (hget (st.eventSeats e) n = none →
      releaseSeat st e n = (.error .seatNotFound, st)) ∧
    (∀ seat, hget (st.eventSeats e) n = some seat → seat.status ≠ .held →
      releaseSeat st e n = (.ok (), st)) ∧
    (∀ er st', releaseSeat st e n = (.error er, st') →
      er = .seatNotFound ∧ st' = st) ∧
    ((releaseSeat st e n).2 ≠ st →
      ∃ seat, hget (st.eventSeats e) n = some seat ∧ seat.status = .held) := by
  rcases releaseSeat_split st e n with ⟨h0, heq⟩ | ⟨s0, hs0, hnh, heq⟩ |
    ⟨s0, hs0, hheld, h1, _⟩
  · refine ⟨fun _ => heq, ?_, ?_, ?_⟩
    · intro seat hseat _
      rw [h0] at hseat
      cases hseat
    · intro er st' he
      rw [heq] at he
      injection he with ha hb
      injection ha with hc
      exact ⟨hc.symm, hb.symm⟩
    · intro hne
      rw [heq] at hne
      exact absurd rfl hne
  · refine ⟨?_, fun _ _ _ => heq, ?_, ?_⟩
    · intro h0
      rw [h0] at hs0
      cases hs0
    · intro er st' he
      rw [heq] at he
      injection he with ha _
      cases ha
    · intro hne
      rw [heq] at hne
      exact absurd rfl hne
  · refine ⟨?_, ?_, ?_, fun _ => ⟨s0, hs0, hheld⟩⟩
    · intro h0
      rw [h0] at hs0
      cases hs0
    · intro seat hseat hnh
      rw [hs0] at hseat
      cases hseat
      exact absurd hheld hnh
    · intro er st' he
      have h2 := congrArg Prod.fst he
      rw [h1] at h2
      cases h2

/-- A state with one available seat (to exercise the no-op branch). -/
def c6St : St :=
  { events := updFun (fun _ => none) "e"
      (some ⟨"e", "ev", "", 10, 0, .active⟩),
    eventSeats := updFun (fun _ => []) "e" [(1, freshSeat "e" 1)],
    seatHolds := fun _ => none,
    userHolds := fun _ => ∅,
    reservations := fun _ => none }

theorem c6_release_idempotent_witness :
    ((releaseSeat c6St "e" 1).2 ≠ c6St →
      ∃ seat, hget (c6St.eventSeats "e") 1 = some seat ∧
        seat.status = .held) ∧
    releaseSeat c6St "e" 1 = (.ok (), c6St) :=
  ⟨(c6_release_idempotent c6St "e" 1).2.2.2,
    (c6_release_idempotent c6St "e" 1).2.1 (freshSeat "e" 1) (by decide) (by decide)⟩

/-! ### Claim C10 -/

/-- Claim C10: `holdSeat` is atomic on error — every failure (event not
found, seat number out of range, seat record absent, seat not available,
quota reached) happens before any write, leaving the entire store (seat
record, hold key, user-hold set) exactly as it was. -/
theorem c10_hold_error_atomic (st : St) (e : String) (n : Nat) (u : String)
    (d now maxH : Nat) (er : Err)
    (h : (holdSeat st e n u d now maxH).1 = .error er) :
    (holdSeat st e n u d now maxH).2 = st ∧
    (er = .eventNotFound ∨ er = .invalidSeatNumber ∨ er = .seatNotFound ∨
      er = .seatNotAvailable ∨ er = .quotaExceeded) := by
  rcases holdSeat_split st e n u d now maxH with
    ⟨_, heq⟩ | ⟨_, _, _, heq⟩ | ⟨_, _, _, _, _, heq⟩ |
    ⟨_, _, _, _, _, _, _, heq⟩ | ⟨_, _, _, _, _, _, _, _, heq⟩ |
    ⟨_, _, _, _, _, _, _, _, hok⟩
  · rw [heq] at h
    rw [heq]
    injection h with h2
    exact ⟨rfl, Or.inl h2.symm⟩
  · rw [heq] at h
    rw [heq]
    injection h with h2
    exact ⟨rfl, Or.inr (Or.inl h2.symm)⟩
  · rw [heq] at h
    rw [heq]
    injection h with h2
    exact ⟨rfl, Or.inr (Or.inr (Or.inl h2.symm))⟩
  · rw [heq] at h
    rw [heq]
    injection h with h2
    exact ⟨rfl, Or.inr (Or.inr (Or.inr (Or.inl h2.symm)))⟩
  · rw [heq] at h
    rw [heq]
    injection h with h2
    exact ⟨rfl, Or.inr (Or.inr (Or.inr (Or.inr h2.symm)))⟩
  · rw [hok] at h
    cases h

theorem c10_hold_error_atomic_witness :
    (holdSeat initSt "e" 1 "A" 60 0 5).2 = initSt ∧
    (Err.eventNotFound = .eventNotFound ∨ Err.eventNotFound = .invalidSeatNumber ∨
      Err.eventNotFound = .seatNotFound ∨ Err.eventNotFound = .seatNotAvailable ∨
      Err.eventNotFound = .quotaExceeded) :=
  c10_hold_error_atomic initSt "e" 1 "A" 60 0 5 .eventNotFound (by decide)

/-! ### Characterization of the `getAvailableSeats` loop -/

theorem releaseSeat_getHold_ne (st : St) (e : String) (m : Nat)
    (e' : String) (k now : Nat) (h : (e', k) ≠ (e, m)) :
    getHold (releaseSeat st e m).2 e' k now = getHold st e' k now := by
  rcases releaseSeat_cases st e m with heq | ⟨seat, _, _, _, _, _, hph, _, _⟩
  · rw [heq]
  · unfold getHold
    rw [hph, updFun_ne _ _ _ h]

theorem releaseSeat_getHold_none (st : St) (e : String) (m now : Nat)
    (h : getHold st e m now = none) :
    getHold (releaseSeat st e m).2 e m now = none := by
  rcases releaseSeat_cases st e m with heq | ⟨seat, _, _, _, _, _, hph, _, _⟩
  · rw [heq]; exact h
  · unfold getHold
    rw [hph, updFun_same]

theorem releaseSeat_hget_ne (st : St) (e : String) (m : Nat)
    (e' : String) (k : Nat) (h : (e', k) ≠ (e, m)) :
    hget ((releaseSeat st e m).2.eventSeats e') k = hget (st.eventSeats e') k := by
  rcases releaseSeat_cases st e m with heq | ⟨seat, _, _, _, _, hps, _, _, _⟩
  · rw [heq]
  · rw [hps]
    by_cases he : e' = e
    · subst he
      rw [updFun_same]
      have hk : k ≠ m := fun hc => h (by rw [hc])
      exact hget_hset_ne _ _ hk
    · rw [updFun_ne _ _ _ he]

theorem availLoop_congr (e : String) (now : Nat) :
    ∀ (entries : List (Nat × Seat)) (st st' : St),
    (∀ p ∈ entries, getHold st e p.1 now = getHold st' e p.1 now) →
    (availLoop st e now entries).1 = (availLoop st' e now entries).1 := by
  intro entries
  induction entries with
  | nil => intro st st' _; rfl
  | cons p rest ih =>
    intro st st' hcong
    rcases p with ⟨m, s⟩
    have hm := hcong (m, s) (List.mem_cons_self _ _)
    have hrest : ∀ p ∈ rest, getHold st e p.1 now = getHold st' e p.1 now :=
      fun p hp => hcong p (List.mem_cons_of_mem _ hp)
    have hm' : getHold st e m now = getHold st' e m now :=
      hcong (m, s) (List.mem_cons_self _ _)
    unfold availLoop
    split
    · dsimp only
      rw [ih st st' hrest]
    · split
      · rcases hh : getHold st e m now with _ | hold
        · have hh' : getHold st' e m now = none := hm' ▸ hh
          rw [hh']
          dsimp only
          have hrest2 : ∀ p ∈ rest,
              getHold (releaseSeat st e m).2 e p.1 now =
              getHold (releaseSeat st' e m).2 e p.1 now := by
            intro p hp
            by_cases hk : p.1 = m
            · rw [hk]
              rw [releaseSeat_getHold_none st e m now hh,
                releaseSeat_getHold_none st' e m now hh']
            · rw [releaseSeat_getHold_ne st e m e p.1 now (by simp [hk]),
                releaseSeat_getHold_ne st' e m e p.1 now (by simp [hk]),
                hrest p hp]
          rw [ih _ _ hrest2]
        · have hh' : getHold st' e m now = some hold := hm' ▸ hh
          rw [hh']
          exact ih st st' hrest
      · exact ih st st' hrest

theorem availLoop_preserve (e : String) (now : Nat) (m : Nat) :
    ∀ (entries : List (Nat × Seat)) (st : St),
    (∀ p ∈ entries, p.1 ≠ m) →
    hget ((availLoop st e now entries).2.eventSeats e) m =
      hget (st.eventSeats e) m := by
  intro entries
  induction entries with
  | nil => intro st _; rfl
  | cons p rest ih =>
    intro st hne
    rcases p with ⟨k, s⟩
    have hk : k ≠ m := hne (k, s) (List.mem_cons_self _ _)
    have hrest : ∀ p ∈ rest, p.1 ≠ m :=
      fun p hp => hne p (List.mem_cons_of_mem _ hp)
    unfold availLoop
    split
    · dsimp only
      exact ih st hrest
    · split
      · split
        · exact ih st hrest
        · dsimp only
          rw [ih _ hrest]
          exact releaseSeat_hget_ne st e k e m (by simp; omega)
      · exact ih st hrest

/-- Inclusion test of one snapshot entry, judged against a fixed store. -/
def availDecide (st : St) (e : String) (now : Nat) (p : Nat × Seat) :
    Option AvailableSeat :=
  if p.2.status = .available ∨
      (p.2.status = .held ∧ getHold st e p.1 now = none)
  then some ⟨p.1, .available⟩ else none

/-- The loop's output, judged against the pre-loop store: exactly the
snapshot entries that are available, or held with no live lease. -/
theorem availLoop_result (e : String) (now : Nat) :
    ∀ (entries : List (Nat × Seat)) (st : St),
    (entries.map Prod.fst).Nodup →
    (availLoop st e now entries).1 = entries.filterMap (availDecide st e now) := by
  intro entries
  induction entries with
  | nil => intro st _; rfl
  | cons p rest ih =>
    intro st hnd
    rcases p with ⟨m, s⟩
    rw [List.map_cons, List.nodup_cons] at hnd
    rw [List.filterMap_cons]
    unfold availLoop
    split
    case isTrue hav =>
      have hd : availDecide st e now (m, s) = some ⟨m, .available⟩ := by
        unfold availDecide
        rw [if_pos (Or.inl hav)]
      rw [hd]
      dsimp only
      rw [ih st hnd.2]
    case isFalse hnav =>
      split
      case isTrue hheld =>
        split
        case h_1 hold hh =>
          have hd : availDecide st e now (m, s) = none := by
            unfold availDecide
            rw [if_neg (by simp [hnav, hh])]
          rw [hd]
          exact ih st hnd.2
        case h_2 hh =>
          have hd : availDecide st e now (m, s) = some ⟨m, .available⟩ := by
            unfold availDecide
            rw [if_pos (Or.inr ⟨hheld, hh⟩)]
          rw [hd]
          dsimp only
          have hcong : (availLoop (releaseSeat st e m).2 e now rest).1 =
              (availLoop st e now rest).1 := by
            apply availLoop_congr
            intro p hp
            have hk : p.1 ≠ m := by
              intro hc
              exact hnd.1 (List.mem_map.mpr ⟨p, hp, hc⟩)
            exact releaseSeat_getHold_ne st e m e p.1 now (by simp [hk])
          rw [hcong, ih st hnd.2]
      case isFalse hnheld =>
        have hd : availDecide st e now (m, s) = none := by
          unfold availDecide
          rw [if_neg (by simp [hnav, hnheld])]
        rw [hd]
        exact ih st hnd.2

/-- Each included seat is left (or put) durably available by the loop. -/
theorem availLoop_post (e : String) (now : Nat) :
    ∀ (entries : List (Nat × Seat)) (st : St),
    (entries.map Prod.fst).Nodup →
    ∀ m seat, (m, seat) ∈ entries →
    (seat.status = .available ∨
      (seat.status = .held ∧ getHold st e m now = none)) →
    hget (st.eventSeats e) m = some seat →
    ∃ seat', hget ((availLoop st e now entries).2.eventSeats e) m = some seat' ∧
      seat'.status = .available := by
  intro entries
  induction entries with
  | nil =>
    intro st _ m seat hmem
    cases hmem
  | cons p rest ih =>
    intro st hnd m seat hmem hcond hcur
    rcases p with ⟨m0, s0⟩
    rw [List.map_cons, List.nodup_cons] at hnd
    rcases List.mem_cons.mp hmem with hhead | hrest
    · cases hhead
      have hnot : ∀ p ∈ rest, p.1 ≠ m := by
        intro p hp hc
        exact hnd.1 (List.mem_map.mpr ⟨p, hp, hc⟩)
      unfold availLoop
      split
      case isTrue hav =>
        refine ⟨seat, ?_, hav⟩
        dsimp only
        rw [availLoop_preserve e now m rest st hnot]
        exact hcur
      case isFalse hnav =>
        rcases hcond with hav | ⟨hheld, hdead⟩
        · exact absurd hav hnav
        · split
          case isTrue _ =>
            split
            case h_1 hold hh => rw [hdead] at hh; cases hh
            case h_2 hh =>
              refine ⟨releasedSeat seat, ?_, rfl⟩
              dsimp only
              rw [availLoop_preserve e now m rest _ hnot]
              exact (releaseSeat_held hcur hheld).2.1
          case isFalse hnheld => exact absurd hheld hnheld
    · have hm0ne : m0 ≠ m := by
        intro hc
        have hmm : m ∈ rest.map Prod.fst := List.mem_map.mpr ⟨(m, seat), hrest, rfl⟩
        exact hnd.1 (hc ▸ hmm)
      unfold availLoop
      split
      · dsimp only
        exact ih st hnd.2 m seat hrest hcond hcur
      · split
        · split
          · exact ih st hnd.2 m seat hrest hcond hcur
          · dsimp only
            apply ih _ hnd.2 m seat hrest
            · rcases hcond with hav | ⟨hheld, hdead⟩
              · exact Or.inl hav
              · refine Or.inr ⟨hheld, ?_⟩
                rw [releaseSeat_getHold_ne st e m0 e m now (by simp; omega)]
                exact hdead
            · rw [releaseSeat_hget_ne st e m0 e m (by simp; omega)]
              exact hcur
        · exact ih st hnd.2 m seat hrest hcond hcur

/-! ### Sorting by seat number -/

theorem mem_insertBySeat (a c : AvailableSeat) (l : List AvailableSeat) :
    c ∈ insertBySeat a l ↔ c = a ∨ c ∈ l := by
  induction l with
  | nil => simp [insertBySeat]
  | cons b t ih =>
    unfold insertBySeat
    split
    · simp [List.mem_cons]
    · rw [List.mem_cons, ih, List.mem_cons]
      tauto

theorem mem_sortBySeat (c : AvailableSeat) (l : List AvailableSeat) :
    c ∈ sortBySeat l ↔ c ∈ l := by
  induction l with
  | nil => simp [sortBySeat]
  | cons a t ih =>
    unfold sortBySeat
    rw [mem_insertBySeat, ih, List.mem_cons]

theorem sorted_insertBySeat (a : AvailableSeat) (l : List AvailableSeat)
    (h : List.Sorted (fun x y : AvailableSeat => x.seatNumber ≤ y.seatNumber) l) :
    List.Sorted (fun x y : AvailableSeat => x.seatNumber ≤ y.seatNumber)
      (insertBySeat a l) := by
  induction l with
  | nil => simp [insertBySeat]
  | cons b t ih =>
    rw [List.sorted_cons] at h
    unfold insertBySeat
    split
    case isTrue hab =>
      rw [List.sorted_cons]
      refine ⟨?_, ?_⟩
      · intro c hc
        rcases List.mem_cons.mp hc with rfl | hc'
        · exact hab
        · exact le_trans hab (h.1 c hc')
      · rw [List.sorted_cons]
        exact h
    case isFalse hab =>
      rw [List.sorted_cons]
      refine ⟨?_, ih h.2⟩
      intro c hc
      rcases (mem_insertBySeat a c t).mp hc with rfl | hc'
      · omega
      · exact h.1 c hc'

theorem sorted_sortBySeat (l : List AvailableSeat) :
    List.Sorted (fun x y : AvailableSeat => x.seatNumber ≤ y.seatNumber)
      (sortBySeat l) := by
  induction l with
  | nil => simp [sortBySeat]
  | cons a t ih =>
    unfold sortBySeat
    exact sorted_insertBySeat a _ ih

theorem sorted_map_seatNumber (l : List AvailableSeat)
    (h : List.Sorted (fun x y : AvailableSeat => x.seatNumber ≤ y.seatNumber) l) :
    List.Sorted (· ≤ ·) (l.map AvailableSeat.seatNumber) := by
  induction l with
  | nil => simp
  | cons a t ih =>
    rw [List.sorted_cons] at h
    rw [List.map_cons, List.sorted_cons]
    refine ⟨?_, ih h.2⟩
    intro b hb
    rcases List.mem_map.mp hb with ⟨c, hc, rfl⟩
    exact h.1 c hc

/-! ### Full specification of `getAvailableSeats` -/

theorem getAvailableSeats_spec (st : St) (e : String) (now : Nat) (ev : Event)
    (hev : st.events e = some ev)
    (hnd : ((st.eventSeats e).map Prod.fst).Nodup) :
    ∃ l, (getAvailableSeats st e now).1 = .ok l ∧
      (∀ a ∈ l, a.status = .available) ∧
      List.Sorted (· ≤ ·) (l.map AvailableSeat.seatNumber) ∧
      (∀ m, m ∈ l.map AvailableSeat.seatNumber ↔
        (∃ seat, hget (st.eventSeats e) m = some seat ∧
          (seat.status = .available ∨
            (seat.status = .held ∧ getHold st e m now = none)))) ∧
      (∀ m, m ∈ l.map AvailableSeat.seatNumber →
        ∃ seat', hget (((getAvailableSeats st e now).2).eventSeats e) m =
          some seat' ∧ seat'.status = .available) := by
  unfold getAvailableSeats
  split
  case h_1 heq => rw [hev] at heq; cases heq
  case h_2 ev0 heq =>
    dsimp only
    have hres := availLoop_result e now (st.eventSeats e) st hnd
    refine ⟨sortBySeat (availLoop st e now (st.eventSeats e)).1, rfl, ?_, ?_, ?_, ?_⟩
    · intro a ha
      rw [mem_sortBySeat, hres] at ha
      rcases List.mem_filterMap.mp ha with ⟨p, _, hd⟩
      unfold availDecide at hd
      split at hd
      · cases hd; rfl
      · cases hd
    · exact sorted_map_seatNumber _ (sorted_sortBySeat _)
    · intro m
      constructor
      · intro hm
        rcases List.mem_map.mp hm with ⟨a, ha, rfl⟩
        rw [mem_sortBySeat, hres] at ha
        rcases List.mem_filterMap.mp ha with ⟨p, hp, hd⟩
        unfold availDecide at hd
        split at hd
        case isTrue hcond =>
          cases hd
          rcases p with ⟨k, s⟩
          exact ⟨s, hget_eq_some_of_mem hnd hp, hcond⟩
        case isFalse => cases hd
      · rintro ⟨seat, hseat, hcond⟩
        have hmem := mem_of_hget hseat
        have hd : availDecide st e now (m, seat) = some ⟨m, .available⟩ := by
          unfold availDecide
          rw [if_pos hcond]
        apply List.mem_map.mpr
        refine ⟨⟨m, .available⟩, ?_, rfl⟩
        rw [mem_sortBySeat, hres]
        exact List.mem_filterMap.mpr ⟨(m, seat), hmem, hd⟩
    · intro m hm
      rcases List.mem_map.mp hm with ⟨a, ha, rfl⟩
      rw [mem_sortBySeat, hres] at ha
      rcases List.mem_filterMap.mp ha with ⟨p, hp, hd⟩
      unfold availDecide at hd
      split at hd
      case isTrue hcond =>
        cases hd
        rcases p with ⟨k, s⟩
        exact availLoop_post e now (st.eventSeats e) st hnd k s hp hcond
          (hget_eq_some_of_mem hnd hp)
      case isFalse => cases hd

/-! ### Claim C9 -/

/-- Claim C9: `getAvailableSeats` returns, in ascending seat-number
order, exactly the seat numbers of seats whose record is available or
whose record is held with no live lease (the latter being released to
available as a side effect before inclusion); reserved seats and seats
with a live hold are excluded (they fail the membership condition). -/
theorem c9_list_available (st : St) (e : String) (now : Nat) (ev : Event)
    (hev : st.events e = some ev)
    (hnd : ((st.eventSeats e).map Prod.fst).Nodup) :
    ∃ l, (getAvailableSeats st e now).1 = .ok l ∧
      List.Sorted (· ≤ ·) (l.map AvailableSeat.seatNumber) ∧
      (∀ m, m ∈ l.map AvailableSeat.seatNumber ↔
        (∃ seat, hget (st.eventSeats e) m = some seat ∧
          (seat.status = .available ∨
            (seat.status = .held ∧ getHold st e m now = none)))) ∧
      (∀ m, m ∈ l.map AvailableSeat.seatNumber →
        ∃ seat', hget (((getAvailableSeats st e now).2).eventSeats e) m =
          some seat' ∧ seat'.status = .available) := by
  rcases getAvailableSeats_spec st e now ev hev hnd with
    ⟨l, h1, _, h3, h4, h5⟩
  exact ⟨l, h1, h3, h4, h5⟩

/-- A reachable-shape state: seat 1 available, seat 2 held with a live
lease at time 20, seat 3 held with an expired lease, seat 4 reserved. -/
def c9St : St :=
  { events := updFun (fun _ => none) "e"
      (some ⟨"e", "ev", "", 10, 0, .active⟩),
    eventSeats := updFun (fun _ => []) "e"
      [(1, freshSeat "e" 1),
       (2, ⟨"e", 2, .held, some "A", some 5, none⟩),
       (3, ⟨"e", 3, .held, some "B", some 5, none⟩),
       (4, ⟨"e", 4, .reserved, some "C", some 5, some 8⟩)],
    seatHolds := updFun (updFun (fun _ => none) ("e", 2)
      (some ⟨"e", 2, "A", 5, 65⟩)) ("e", 3) (some ⟨"e", 3, "B", 5, 15⟩),
    userHolds := updFun (updFun (fun _ => ∅) ("A", "e") {2}) ("B", "e") {3},
    reservations := updFun (fun _ => none) ("e", 4)
      (some ⟨"e", 4, "C", 8⟩) }

theorem c9_list_available_witness :
    ∃ l, (getAvailableSeats c9St "e" 20).1 = .ok l ∧
      List.Sorted (· ≤ ·) (l.map AvailableSeat.seatNumber) ∧
      (∀ m, m ∈ l.map AvailableSeat.seatNumber ↔
        (∃ seat, hget (c9St.eventSeats "e") m = some seat ∧
          (seat.status = .available ∨
            (seat.status = .held ∧ getHold c9St "e" m 20 = none)))) ∧
      (∀ m, m ∈ l.map AvailableSeat.seatNumber →
        ∃ seat', hget (((getAvailableSeats c9St "e" 20).2).eventSeats "e") m =
          some seat' ∧ seat'.status = .available) :=
  c9_list_available c9St "e" 20 ⟨"e", "ev", "", 10, 0, .active⟩
    (by decide) (by decide)

/-! ### Claim C4 -/

theorem reserveSeat_notHeld {st : St} {e : String} {n : Nat} {u : String}
    {now : Nat} (h : getHold st e n now = none) :
    reserveSeat st e n u now = (.error .notHeld, st) := by
  unfold reserveSeat
  split
  case h_1 => rfl
  case h_2 hold hh => rw [h] at hh; cases hh

theorem refreshSeatHold_notHeld {st : St} {e : String} {n : Nat} {u : String}
    {d now : Nat} (h : getHold st e n now = none) :
    refreshSeatHold st e n u d now = (.error .notHeld, st) := by
  unfold refreshSeatHold
  split
  case h_1 => rfl
  case h_2 hold hh => rw [h] at hh; cases hh

theorem getSeatStatus_reconcile {st : St} {e : String} {n : Nat} {now : Nat}
    {seat : Seat} (hseat : hget (st.eventSeats e) n = some seat)
    (hheld : seat.status = .held) (hdead : getHold st e n now = none) :
    (getSeatStatus st e n now).1 = .ok (releasedSeat seat) ∧
    (getSeatStatus st e n now).2 = (releaseSeat st e n).2 := by
  rcases getSeatStatus_split st e n now with ⟨h0, _⟩ | ⟨s0, hs0, hnh, _⟩ |
    ⟨s0, hold, hs0, _, hh, _⟩ | ⟨s0, hs0, _, _, heq⟩
  · rw [hseat] at h0; cases h0
  · rw [hseat] at hs0
    cases hs0
    exact absurd hheld hnh
  · rw [hdead] at hh; cases hh
  · rw [hseat] at hs0
    cases hs0
    exact ⟨by rw [heq], by rw [heq]⟩

/-- A reachable-shape state: seat 3 durably held by A, its lease present
in the map but expired well before `now = 100` (so the TTL store
reports it gone). -/
def c4St : St :=
  { events := updFun (fun _ => none) "e"
      (some ⟨"e", "ev", "", 10, 0, .active⟩),
    eventSeats := updFun (fun _ => []) "e"
      [(3, ⟨"e", 3, .held, some "A", some 5, none⟩)],
    seatHolds := updFun (fun _ => none) ("e", 3) (some ⟨"e", 3, "A", 5, 65⟩),
    userHolds := updFun (fun _ => ∅) ("A", "e") {3},
    reservations := fun _ => none }

/-- Claim C4, counterexample: with seat 3 durably held and its lease
absent (expired), `reserveSeat` — one of the four paths the claim
covers — fails with `notHeld` WITHOUT performing the implicit release:
afterwards the durable status is still `held` and the holder's
user-hold set still contains the seat. -/
theorem c4_counterexample :
    getHold c4St "e" 3 100 = none ∧
    (hget (c4St.eventSeats "e") 3).map Seat.status = some .held ∧
    (reserveSeat c4St "e" 3 "A" 100).1 = .error .notHeld ∧
    (hget ((reserveSeat c4St "e" 3 "A" 100).2.eventSeats "e") 3).map
      Seat.status = some .held ∧
    3 ∈ (reserveSeat c4St "e" 3 "A" 100).2.userHolds ("A", "e") := by decide

/-- Claim C4 (amended): `getSeatStatus` and `getAvailableSeats` check the
lease of a held seat and, when it is absent, perform the implicit
release before answering (durable status available, holder and held-at
cleared, holder's user-hold set pruned) — so after expiry the very next
`getSeatStatus` or `getAvailableSeats` reports the seat available.
`reserveSeat` and `refreshSeatHold` also check the lease, but on
absence they fail with `notHeld` WITHOUT the implicit release: the
whole store is left unchanged, the durable record still held. -/
theorem c4_lazy_reconciliation_amended (st : St) (e : String) (n : Nat)
    (u : String) (d now : Nat) (seat : Seat) (ev : Event)
    (hev : st.events e = some ev)
    (hnd : ((st.eventSeats e).map Prod.fst).Nodup)
    (hseat : hget (st.eventSeats e) n = some seat)
    (hheld : seat.status = .held)
    (hdead : getHold st e n now = none) :
    ((getSeatStatus st e n now).1 = .ok (releasedSeat seat) ∧
      hget ((getSeatStatus st e n now).2.eventSeats e) n =
        some (releasedSeat seat) ∧
      (getSeatStatus st e n now).2.seatHolds (e, n) = none ∧
      (∀ u0, seat.userId = some u0 →
        n ∉ (getSeatStatus st e n now).2.userHolds (u0, e))) ∧
    (∃ l, (getAvailableSeats st e now).1 = .ok l ∧
      n ∈ l.map AvailableSeat.seatNumber ∧
      (∃ seat', hget ((getAvailableSeats st e now).2.eventSeats e) n =
        some seat' ∧ seat'.status = .available)) ∧
    reserveSeat st e n u now = (.error .notHeld, st) ∧
    refreshSeatHold st e n u d now = (.error .notHeld, st) := by
  have hrec := getSeatStatus_reconcile hseat hheld hdead
  have hrel := releaseSeat_held hseat hheld
  refine ⟨⟨hrec.1, ?_, ?_, ?_⟩, ?_, reserveSeat_notHeld hdead,
    refreshSeatHold_notHeld hdead⟩
  · rw [hrec.2]
    exact hrel.2.1
  · rw [hrec.2]
    exact hrel.2.2.1
  · intro u0 hu
    rw [hrec.2]
    exact hrel.2.2.2 u0 hu
  · rcases getAvailableSeats_spec st e now ev hev hnd with ⟨l, h1, _, _, h4, h5⟩
    have hmem : n ∈ l.map AvailableSeat.seatNumber :=
      (h4 n).mpr ⟨seat, hseat, Or.inr ⟨hheld, hdead⟩⟩
    exact ⟨l, h1, hmem, h5 n hmem⟩

/-- The held seat record of `c4St`. -/
def c4Seat : Seat := ⟨"e", 3, .held, some "A", some 5, none⟩

theorem c4_lazy_reconciliation_amended_witness :
    ((getSeatStatus c4St "e" 3 100).1 = .ok (releasedSeat c4Seat) ∧
      hget ((getSeatStatus c4St "e" 3 100).2.eventSeats "e") 3 =
        some (releasedSeat c4Seat) ∧
      (getSeatStatus c4St "e" 3 100).2.seatHolds ("e", 3) = none ∧
      (∀ u0, c4Seat.userId = some u0 →
        3 ∉ (getSeatStatus c4St "e" 3 100).2.userHolds (u0, "e"))) ∧
    (∃ l, (getAvailableSeats c4St "e" 100).1 = .ok l ∧
      3 ∈ l.map AvailableSeat.seatNumber ∧
      (∃ seat', hget ((getAvailableSeats c4St "e" 100).2.eventSeats "e") 3 =
        some seat' ∧ seat'.status = .available)) ∧
    reserveSeat c4St "e" 3 "A" 100 = (.error .notHeld, c4St) ∧
    refreshSeatHold c4St "e" 3 "A" 60 100 = (.error .notHeld, c4St) :=
  c4_lazy_reconciliation_amended c4St "e" 3 "A" 60 100 c4Seat
    ⟨"e", "ev", "", 10, 0, .active⟩ (by decide) (by decide) (by decide)
    (by decide) (by decide)

/-! ### Claim C3 -/

/-- Claim C3: `reserveSeat` succeeds exactly when a live (non-expired)
lease exists for the seat with the caller as its holder (given the seat
record exists — an absent record fails with `seatNotFound`); on success
the durable record becomes reserved with reserved-at set, the lease key
is deleted, a reservation record is created, and the seat leaves the
holder's user-hold set; every failure is one of `seatNotFound`,
`notHeld`, `heldByOther`, `holdExpired`. -/
theorem c3_reserve_spec (st : St) (e : String) (n : Nat) (u : String)
    (now : Nat) :
    (∀ seat, hget (st.eventSeats e) n = some seat →
      (((reserveSeat st e n u now).1 = .ok ⟨e, n, u, now⟩) ↔
        (∃ hold, getHold st e n now = some hold ∧ hold.userId = u)) ∧
      ((∃ hold, getHold st e n now = some hold ∧ hold.userId = u) →
        hget ((reserveSeat st e n u now).2.eventSeats e) n =
          some (reservedSeat seat now) ∧
        (reserveSeat st e n u now).2.seatHolds (e, n) = none ∧
        (reserveSeat st e n u now).2.reservations (e, n) =
          some ⟨e, n, u, now⟩ ∧
        n ∉ (reserveSeat st e n u now).2.userHolds (u, e))) ∧
    (∀ er, (reserveSeat st e n u now).1 = .error er →
      er = .seatNotFound ∨ er = .notHeld ∨ er = .heldByOther ∨
        er = .holdExpired) := by
  rcases reserveSeat_split st e n u now with ⟨hh, heq⟩ | ⟨hold, hh, hne, heq⟩ |
    ⟨hold, hh, huid, h0, heq⟩ |
    ⟨hold, seat0, hh, huid, hs0, hok, _, hps, hph, hpr, hpu⟩
  · refine ⟨?_, ?_⟩
    · intro seat hseat
      refine ⟨⟨?_, ?_⟩, ?_⟩
      · intro hok1
        rw [heq] at hok1
        injection hok1
      · rintro ⟨hold, hh2, _⟩
        rw [hh] at hh2
        cases hh2
      · rintro ⟨hold, hh2, _⟩
        rw [hh] at hh2
        cases hh2
    · intro er he
      rw [heq] at he
      injection he with h2
      exact Or.inr (Or.inl h2.symm)
  · refine ⟨?_, ?_⟩
    · intro seat hseat
      refine ⟨⟨?_, ?_⟩, ?_⟩
      · intro hok1
        rw [heq] at hok1
        injection hok1
      · rintro ⟨hold2, hh2, hu2⟩
        rw [hh] at hh2
        cases hh2
        exact absurd hu2 hne
      · rintro ⟨hold2, hh2, hu2⟩
        rw [hh] at hh2
        cases hh2
        exact absurd hu2 hne
    · intro er he
      rw [heq] at he
      injection he with h2
      exact Or.inr (Or.inr (Or.inl h2.symm))
  · refine ⟨?_, ?_⟩
    · intro seat hseat
      rw [h0] at hseat
      cases hseat
    · intro er he
      rw [heq] at he
      injection he with h2
      exact Or.inl h2.symm
  · refine ⟨?_, ?_⟩
    · intro seat hseat
      rw [hs0] at hseat
      cases hseat
      refine ⟨⟨fun _ => ⟨hold, hh, huid⟩, fun _ => hok⟩, fun _ => ?_⟩
      refine ⟨?_, ?_, ?_, ?_⟩
      · rw [hps, updFun_same, hget_hset_self]
      · rw [hph, updFun_same]
      · rw [hpr, updFun_same]
      · rw [hpu, updFun_same]
        exact Finset.not_mem_erase n _
    · intro er he
      rw [hok] at he
      cases he

/-- A state with seat 3 held by A and a live lease at time 20. -/
def c3St : St :=
  { events := updFun (fun _ => none) "e"
      (some ⟨"e", "ev", "", 10, 0, .active⟩),
    eventSeats := updFun (fun _ => []) "e"
      [(3, ⟨"e", 3, .held, some "A", some 5, none⟩)],
    seatHolds := updFun (fun _ => none) ("e", 3) (some ⟨"e", 3, "A", 5, 65⟩),
    userHolds := updFun (fun _ => ∅) ("A", "e") {3},
    reservations := fun _ => none }

theorem c3_reserve_spec_witness :
    (reserveSeat c3St "e" 3 "A" 20).1 = .ok ⟨"e", 3, "A", 20⟩ ∧
    hget ((reserveSeat c3St "e" 3 "A" 20).2.eventSeats "e") 3 =
      some (reservedSeat ⟨"e", 3, .held, some "A", some 5, none⟩ 20) ∧
    (reserveSeat c3St "e" 3 "A" 20).2.seatHolds ("e", 3) = none ∧
    (reserveSeat c3St "e" 3 "A" 20).2.reservations ("e", 3) =
      some ⟨"e", 3, "A", 20⟩ ∧
    3 ∉ (reserveSeat c3St "e" 3 "A" 20).2.userHolds ("A", "e") := by
  have h := (c3_reserve_spec c3St "e" 3 "A" 20).1
    ⟨"e", 3, .held, some "A", some 5, none⟩ (by decide)
  have hlive : ∃ hold, getHold c3St "e" 3 20 = some hold ∧ hold.userId = "A" :=
    ⟨⟨"e", 3, "A", 5, 65⟩, by decide, by decide⟩
  have h2 := h.2 hlive
  exact ⟨h.1.mpr hlive, h2.1, h2.2.1, h2.2.2.1, h2.2.2.2⟩

/-! ### Claim C7 -/

/-- A state whose gate for seat 1 is held with token `A:5` until t=15. -/
def c7St : EnhSt :=
  { seats := updFun (fun _ => none) ("e", 1) (some (freshSeat "e" 1)),
    holds := fun _ => none,
    userHolds := fun _ => ∅,
    locks := updFun (fun _ => none) ("e", 1) (some ("A:5", 15)),
    reservations := fun _ => none }

/-- Claim C7, counterexample: the gate release (`finally { DEL lockKey }`)
takes no token and checks none — with the gate held under token "A:5",
a release performed by any party deletes it unconditionally, refuting
"gate release only succeeds for the acquirer holding that token". -/
theorem c7_counterexample :
    c7St.locks ("e", 1) = some ("A:5", 15) ∧
    (releaseSeatLock c7St "e" 1).locks ("e", 1) = none := by decide

/-- Claim C7 (amended): the gate is acquired by an atomic
create-if-absent-with-TTL write of the attempt's token, and a hold
attempt finding the gate live fails immediately with `lockContention`
and an unchanged store, with no queuing or internal retry; however the
gate release is an unconditional delete that checks no token, removing
whatever lock key is present. -/
theorem c7_gate_amended (st : EnhSt) (e : String) (n : Nat) (u : String)
    (d now maxH : Nat) (v : String) :
    (lockLive st e n now = true → acquireSeatLock st e n v now = (false, st)) ∧
    (lockLive st e n now = false →
      acquireSeatLock st e n v now =
        (true, { st with locks := updFun st.locks (e, n) (some (v, now + 10)) })) ∧
    (lockLive st e n now = true →
      enhHoldSeat st e n u d now maxH = (.error .lockContention, st)) ∧
    (releaseSeatLock st e n).locks (e, n) = none := by
  refine ⟨?_, ?_, ?_, ?_⟩
  · intro h
    unfold acquireSeatLock
    rw [if_pos h]
  · intro h
    unfold acquireSeatLock
    rw [if_neg (by rw [h]; exact Bool.false_ne_true)]
  · intro h
    have hacq : acquireSeatLock st e n (u ++ ":" ++ toString now) now = (false, st) := by
      unfold acquireSeatLock
      rw [if_pos h]
    unfold enhHoldSeat
    dsimp only
    rw [hacq]
    rfl
  · exact updFun_same _ _ _

theorem c7_gate_amended_witness :
    enhHoldSeat c7St "e" 1 "B" 60 5 5 = (.error .lockContention, c7St) ∧
    (releaseSeatLock c7St "e" 1).locks ("e", 1) = none :=
  ⟨(c7_gate_amended c7St "e" 1 "B" 60 5 5 "B:5").2.2.1 (by decide),
    (c7_gate_amended c7St "e" 1 "B" 60 5 5 "B:5").2.2.2⟩

/-! ### Claim C1 -/

theorem updPhase_same (ph : Nat → Phase) (i : Nat) (p : Phase) :
    updPhase ph i p i = p := by simp [updPhase]

theorem updPhase_ne (ph : Nat → Phase) (i : Nat) (p : Phase) {j : Nat}
    (h : j ≠ i) : updPhase ph i p j = ph j := by simp [updPhase, h]

theorem enhHoldCritical_cases (st : EnhSt) (e : String) (n : Nat) (u : String)
    (d now maxH : Nat) :
    (st.seats (e, n) = none ∧
      enhHoldCritical st e n u d now maxH = (.error .seatNotFound, st)) ∨
    (∃ seat, st.seats (e, n) = some seat ∧ seat.status ≠ .available ∧
      enhHoldCritical st e n u d now maxH = (.error .seatNotAvailable, st)) ∨
    (∃ seat, st.seats (e, n) = some seat ∧ seat.status = .available ∧
      (st.userHolds (u, e)).card ≥ maxH ∧
      enhHoldCritical st e n u d now maxH = (.error .quotaExceeded, st)) ∨
    (∃ seat, st.seats (e, n) = some seat ∧ seat.status = .available ∧
      (st.userHolds (u, e)).card < maxH ∧
      (enhHoldCritical st e n u d now maxH).1 = .ok ⟨e, n, u, now, now + d⟩ ∧
      (enhHoldCritical st e n u d now maxH).2.seats =
        updFun st.seats (e, n) (some (heldSeat seat u now)) ∧
      (enhHoldCritical st e n u d now maxH).2.holds =
        updFun st.holds (e, n) (some ⟨e, n, u, now, now + d⟩) ∧
      (enhHoldCritical st e n u d now maxH).2.userHolds =
        updFun st.userHolds (u, e) (insert n (st.userHolds (u, e))) ∧
      (enhHoldCritical st e n u d now maxH).2.locks = st.locks) := by
  unfold enhHoldCritical
  split
  case h_1 hseat => exact Or.inl ⟨hseat, rfl⟩
  case h_2 seat hseat =>
    split
    case isTrue hst => exact Or.inr (Or.inl ⟨seat, hseat, hst, rfl⟩)
    case isFalse hst =>
      split
      case isTrue hq =>
        refine Or.inr (Or.inr (Or.inl ⟨seat, hseat, not_ne_iff.mp hst, ?_, rfl⟩))
        unfold enhGetUserHoldCount at hq
        omega
      case isFalse hq =>
        refine Or.inr (Or.inr (Or.inr ⟨seat, hseat, not_ne_iff.mp hst, ?_,
          rfl, rfl, rfl, rfl, rfl⟩))
        unfold enhGetUserHoldCount at hq
        omega

theorem acquireSeatLock_keeps (st : EnhSt) (e : String) (n : Nat)
    (v : String) (now : Nat) :
    (acquireSeatLock st e n v now).2.seats = st.seats ∧
    (acquireSeatLock st e n v now).2.userHolds = st.userHolds := by
  unfold acquireSeatLock
  split <;> exact ⟨rfl, rfl⟩

theorem releaseSeatLock_keeps (st : EnhSt) (e : String) (n : Nat) :
    (releaseSeatLock st e n).seats = st.seats ∧
    (releaseSeatLock st e n).userHolds = st.userHolds :=
  ⟨rfl, rfl⟩

/-- Inductive invariant of the concurrent-hold system: at most one caller
has succeeded; after a success the seat is no longer available; the seat
record's existence never changes; while the seat is still available no
user-hold set has changed; and (under the claim's side conditions) every
finished failure is `seatNotAvailable` or `lockContention`. -/
def C1Inv (e : String) (n : Nat) (maxH : Nat) (users : Nat → String)
    (st₀ : EnhSt) : EnhSt × (Nat → Phase) → Prop
  | (st, ph) =>
    (∀ i j hi hj, ph i = .done (.ok hi) → ph j = .done (.ok hj) → i = j) ∧
    ((∃ i hi, ph i = .done (.ok hi)) →
      (st.seats (e, n)).map Seat.status ≠ some .available) ∧
    ((st.seats (e, n)).isSome ↔ (st₀.seats (e, n)).isSome) ∧
    ((st.seats (e, n)).map Seat.status = some .available →
      st.userHolds = st₀.userHolds) ∧
    ((st₀.seats (e, n)).isSome →
      (∀ i, (st₀.userHolds (users i, e)).card < maxH) →
      ∀ i er, ph i = .done (.error er) →
        er = .seatNotAvailable ∨ er = .lockContention)

theorem c1Inv_init (e : String) (n : Nat) (maxH : Nat) (users : Nat → String)
    (st₀ : EnhSt) : C1Inv e n maxH users st₀ (st₀, fun _ => .start) := by
  refine ⟨?_, ?_, Iff.rfl, fun _ => rfl, ?_⟩
  · intro i j hi hj h
    cases h
  · rintro ⟨i, hi, h⟩
    cases h
  · intro _ _ i er h
    cases h

theorem c1Inv_step {e : String} {n : Nat} {d now maxH : Nat}
    {users : Nat → String} {st₀ : EnhSt} {cfg cfg' : EnhSt × (Nat → Phase)}
    (hstep : CStep e n d now maxH users cfg cfg')
    (hI : C1Inv e n maxH users st₀ cfg) : C1Inv e n maxH users st₀ cfg' := by
  cases hstep with
  | lockBusy st ph i hp hl =>
    obtain ⟨I1, I2, I3, I4, I5⟩ := hI
    refine ⟨?_, ?_, I3, I4, ?_⟩
    · intro a b ha hb hda hdb
      by_cases hai : a = i
      · subst hai
        rw [updPhase_same] at hda
        cases hda
      · rw [updPhase_ne _ _ _ hai] at hda
        by_cases hbi : b = i
        · subst hbi
          rw [updPhase_same] at hdb
          cases hdb
        · rw [updPhase_ne _ _ _ hbi] at hdb
          exact I1 a b ha hb hda hdb
    · rintro ⟨a, ha, hda⟩
      by_cases hai : a = i
      · subst hai
        rw [updPhase_same] at hda
        cases hda
      · rw [updPhase_ne _ _ _ hai] at hda
        exact I2 ⟨a, ha, hda⟩
    · intro hs hq a er hda
      by_cases hai : a = i
      · subst hai
        rw [updPhase_same] at hda
        cases hda
        exact Or.inr rfl
      · rw [updPhase_ne _ _ _ hai] at hda
        exact I5 hs hq a er hda
  | lockAcquire st ph i hp hl =>
    obtain ⟨I1, I2, I3, I4, I5⟩ := hI
    have hk := acquireSeatLock_keeps st e n (users i ++ ":" ++ toString now) now
    refine ⟨?_, ?_, ?_, ?_, ?_⟩
    · intro a b ha hb hda hdb
      by_cases hai : a = i
      · subst hai
        rw [updPhase_same] at hda
        cases hda
      · rw [updPhase_ne _ _ _ hai] at hda
        by_cases hbi : b = i
        · subst hbi
          rw [updPhase_same] at hdb
          cases hdb
        · rw [updPhase_ne _ _ _ hbi] at hdb
          exact I1 a b ha hb hda hdb
    · rintro ⟨a, ha, hda⟩
      rw [hk.1]
      by_cases hai : a = i
      · subst hai
        rw [updPhase_same] at hda
        cases hda
      · rw [updPhase_ne _ _ _ hai] at hda
        exact I2 ⟨a, ha, hda⟩
    · rw [hk.1]
      exact I3
    · rw [hk.1, hk.2]
      exact I4
    · intro hs hq a er hda
      by_cases hai : a = i
      · subst hai
        rw [updPhase_same] at hda
        cases hda
      · rw [updPhase_ne _ _ _ hai] at hda
        exact I5 hs hq a er hda
  | runCritical st ph i r st' hp hc =>
    obtain ⟨I1, I2, I3, I4, I5⟩ := hI
    have hkr := releaseSeatLock_keeps st' e n
    rcases enhHoldCritical_cases st e n (users i) d now maxH with
      ⟨hseat, heq⟩ | ⟨seat, hseat, hst, heq⟩ |
      ⟨seat, hseat, hav, hq0, heq⟩ |
      ⟨seat, hseat, hav, hq0, hok, hps, _, hpu, _⟩
    · rw [heq] at hc
      injection hc with hc1 hc2
      subst hc1; subst hc2
      refine ⟨?_, ?_, ?_, ?_, ?_⟩
      · intro a b ha hb hda hdb
        by_cases hai : a = i
        · subst hai
          rw [updPhase_same] at hda
          cases hda
        · rw [updPhase_ne _ _ _ hai] at hda
          by_cases hbi : b = i
          · subst hbi
            rw [updPhase_same] at hdb
            cases hdb
          · rw [updPhase_ne _ _ _ hbi] at hdb
            exact I1 a b ha hb hda hdb
      · rintro ⟨a, ha, hda⟩
        rw [hkr.1]
        by_cases hai : a = i
        · subst hai
          rw [updPhase_same] at hda
          cases hda
        · rw [updPhase_ne _ _ _ hai] at hda
          exact I2 ⟨a, ha, hda⟩
      · rw [hkr.1]; exact I3
      · rw [hkr.1, hkr.2]; exact I4
      · intro hs hq a er hda
        exfalso
        have h2 : (st.seats (e, n)).isSome := I3.mpr hs
        rw [hseat] at h2
        cases h2
    · rw [heq] at hc
      injection hc with hc1 hc2
      subst hc1; subst hc2
      refine ⟨?_, ?_, ?_, ?_, ?_⟩
      · intro a b ha hb hda hdb
        by_cases hai : a = i
        · subst hai
          rw [updPhase_same] at hda
          cases hda
        · rw [updPhase_ne _ _ _ hai] at hda
          by_cases hbi : b = i
          · subst hbi
            rw [updPhase_same] at hdb
            cases hdb
          · rw [updPhase_ne _ _ _ hbi] at hdb
            exact I1 a b ha hb hda hdb
      · rintro ⟨a, ha, hda⟩
        rw [hkr.1]
        by_cases hai : a = i
        · subst hai
          rw [updPhase_same] at hda
          cases hda
        · rw [updPhase_ne _ _ _ hai] at hda
          exact I2 ⟨a, ha, hda⟩
      · rw [hkr.1]; exact I3
      · rw [hkr.1, hkr.2]; exact I4
      · intro hs hq a er hda
        by_cases hai : a = i
        · subst hai
          rw [updPhase_same] at hda
          cases hda
          exact Or.inl rfl
        · rw [updPhase_ne _ _ _ hai] at hda
          exact I5 hs hq a er hda
    · rw [heq] at hc
      injection hc with hc1 hc2
      subst hc1; subst hc2
      refine ⟨?_, ?_, ?_, ?_, ?_⟩
      · intro a b ha hb hda hdb
        by_cases hai : a = i
        · subst hai
          rw [updPhase_same] at hda
          cases hda
        · rw [updPhase_ne _ _ _ hai] at hda
          by_cases hbi : b = i
          · subst hbi
            rw [updPhase_same] at hdb
            cases hdb
          · rw [updPhase_ne _ _ _ hbi] at hdb
            exact I1 a b ha hb hda hdb
      · rintro ⟨a, ha, hda⟩
        rw [hkr.1]
        by_cases hai : a = i
        · subst hai
          rw [updPhase_same] at hda
          cases hda
        · rw [updPhase_ne _ _ _ hai] at hda
          exact I2 ⟨a, ha, hda⟩
      · rw [hkr.1]; exact I3
      · rw [hkr.1, hkr.2]; exact I4
      · intro hs hq a er hda
        exfalso
        have hmap : (st.seats (e, n)).map Seat.status = some .available := by
          rw [hseat]
          simp [hav]
        have huh := I4 hmap
        have hlt := hq i
        rw [← huh] at hlt
        omega
    · have hok' : r = Except.ok (⟨e, n, users i, now, now + d⟩ : SeatHold) := by
        rw [hc] at hok
        exact hok
      have hps' : st'.seats =
          updFun st.seats (e, n) (some (heldSeat seat (users i) now)) := by
        rw [hc] at hps
        exact hps
      have hpu' : st'.userHolds =
          updFun st.userHolds (users i, e) (insert n (st.userHolds (users i, e))) := by
        rw [hc] at hpu
        exact hpu
      have hnosucc : ∀ c hc0, ph c = Phase.done (.ok hc0) → False := by
        intro c hc0 hdc
        apply I2 ⟨c, hc0, hdc⟩
        rw [hseat]
        simp [hav]
      refine ⟨?_, ?_, ?_, ?_, ?_⟩
      · intro a b ha hb hda hdb
        by_cases hai : a = i
        · by_cases hbi : b = i
          · rw [hai, hbi]
          · rw [updPhase_ne _ _ _ hbi] at hdb
            exact absurd hdb (fun h2 => hnosucc b hb h2)
        · rw [updPhase_ne _ _ _ hai] at hda
          exact absurd hda (fun h2 => hnosucc a ha h2)
      · rintro ⟨a, ha, hda⟩
        rw [hkr.1, hps', updFun_same]
        simp [heldSeat]
      · rw [hkr.1, hps', updFun_same]
        exact ⟨fun _ => I3.mp (by rw [hseat]; rfl), fun _ => rfl⟩
      · rw [hkr.1, hps', updFun_same]
        intro h2
        simp [heldSeat] at h2
      · intro hs hq a er hda
        by_cases hai : a = i
        · subst hai
          rw [updPhase_same] at hda
          injection hda with h3
          rw [h3] at hok'
          cases hok'
        · rw [updPhase_ne _ _ _ hai] at hda
          exact I5 hs hq a er hda

/-- Claim C1: among any number of concurrently scheduled
`EnhancedSeatService.holdSeat` attempts on the same (event, seat) —
each caller performing the atomic gate acquisition and then, holding
the gate, its critical section — at most one caller succeeds, and
(provided the seat record exists and every caller is below quota, so
that the incidental `seatNotFound`/`quotaExceeded` failures cannot
arise) every other finished caller fails with the Conflict error
`seatNotAvailable` ("Seat is not available") or with `lockContention`
("Seat is currently being processed by another user"). -/
theorem c1_hold_exclusivity (e : String) (n : Nat) (d now maxH : Nat)
    (users : Nat → String) (st₀ st : EnhSt) (ph : Nat → Phase)
    (hs : (st₀.seats (e, n)).isSome)
    (hq : ∀ i, (st₀.userHolds (users i, e)).card < maxH)
    (htrace : Relation.ReflTransGen (CStep e n d now maxH users)
      (st₀, fun _ => Phase.start) (st, ph)) :
    (∀ i j hi hj, ph i = .done (.ok hi) → ph j = .done (.ok hj) → i = j) ∧
    (∀ i er, ph i = .done (.error er) →
      er = .seatNotAvailable ∨ er = .lockContention) := by
  have hgen : ∀ cfg, Relation.ReflTransGen (CStep e n d now maxH users)
      (st₀, fun _ => Phase.start) cfg → C1Inv e n maxH users st₀ cfg := by
    intro cfg h
    induction h with
    | refl => exact c1Inv_init e n maxH users st₀
    | tail _ hstep ih => exact c1Inv_step hstep ih
  obtain ⟨I1, _, _, _, I5⟩ := hgen (st, ph) htrace
  exact ⟨I1, I5 hs hq⟩

/-- Concurrent-run witness data: one available seat, two callers. -/
def c1St0 : EnhSt :=
  { seats := updFun (fun _ => none) ("e", 1) (some (freshSeat "e" 1)),
    holds := fun _ => none,
    userHolds := fun _ => ∅,
    locks := fun _ => none,
    reservations := fun _ => none }

/-- Caller 0 is holder "A", every other caller is holder "B". -/
def c1Users : Nat → String := fun i => if i = 0 then "A" else "B"

/-- State after caller 0 acquires the gate. -/
def c1St1 : EnhSt := (acquireSeatLock c1St0 "e" 1 (c1Users 0 ++ ":" ++ toString 5) 5).2

/-- Phases after caller 0 acquires the gate. -/
def c1Ph1 : Nat → Phase := updPhase (fun _ => Phase.start) 0 .critical

/-- Phases after caller 1 then hits the live gate. -/
def c1Ph2 : Nat → Phase := updPhase c1Ph1 1 (.done (.error .lockContention))

/-- Final state after caller 0 runs its critical section and releases. -/
def c1StF : EnhSt :=
  releaseSeatLock (enhHoldCritical c1St1 "e" 1 (c1Users 0) 60 5 2).2 "e" 1

/-- Final phases: caller 0 done with its critical-section result. -/
def c1PhF : Nat → Phase :=
  updPhase c1Ph2 0 (.done (enhHoldCritical c1St1 "e" 1 (c1Users 0) 60 5 2).1)

theorem c1_hold_exclusivity_witness :
    (∀ i j hi hj, c1PhF i = .done (.ok hi) → c1PhF j = .done (.ok hj) → i = j) ∧
    (∀ i er, c1PhF i = .done (.error er) →
      er = Err.seatNotAvailable ∨ er = Err.lockContention) := by
  have t1 : CStep "e" 1 60 5 2 c1Users (c1St0, fun _ => Phase.start)
      (c1St1, c1Ph1) :=
    CStep.lockAcquire c1St0 (fun _ => Phase.start) 0 rfl (by decide)
  have t2 : CStep "e" 1 60 5 2 c1Users (c1St1, c1Ph1) (c1St1, c1Ph2) :=
    CStep.lockBusy c1St1 c1Ph1 1 rfl (by decide)
  have t3 : CStep "e" 1 60 5 2 c1Users (c1St1, c1Ph2) (c1StF, c1PhF) :=
    CStep.runCritical c1St1 c1Ph2 0
      (enhHoldCritical c1St1 "e" 1 (c1Users 0) 60 5 2).1
      (enhHoldCritical c1St1 "e" 1 (c1Users 0) 60 5 2).2 rfl rfl
  have htrace : Relation.ReflTransGen (CStep "e" 1 60 5 2 c1Users)
      (c1St0, fun _ => Phase.start) (c1StF, c1PhF) :=
    Relation.ReflTransGen.tail
      (Relation.ReflTransGen.tail (Relation.ReflTransGen.tail
        Relation.ReflTransGen.refl t1) t2) t3
  exact c1_hold_exclusivity "e" 1 60 5 2 c1Users c1St0 c1StF c1PhF
    (by decide) (fun i => by simp [c1St0]) htrace

end SeatEngine
